import Mathlib

/-!
Shallow embedding of the analysis pipeline of `src/analysis.py`
(class `AnalysisEngine`) of the llm_industry_report repository,
together with proofs about the claims of its specification.

Python JSON-compatible values are embedded as the inductive type `Value`;
Python dicts are insertion-ordered association lists with unique keys;
Python floats are embedded as exact rationals; functions that can raise
are embedded in `Except String`, the string naming the exception.
-/

inductive Value where
  | str (s : String)
  | int (n : Int)
  | float (q : ℚ)
  | bool (b : Bool)
  | list (vs : List Value)
  | dict (kvs : List (String × Value))
  | none
deriving Inhabited

/-- Lookup of a key in an embedded Python dict (`d[k]` when present). -/
def dictLookup (kvs : List (String × Value)) (k : String) : Option Value :=
  (kvs.find? (fun kv => kv.1 == k)).map (fun kv => kv.2)

/-- Python `d.get(k, default)` on an embedded dict. -/
def dictGet (kvs : List (String × Value)) (k : String) (default : Value) : Value :=
  match dictLookup kvs k with
  | some v => v
  | Option.none => default

/-- Python `d[k] = v`: overwrite in place when the key exists (keeping its
position, as dicts preserve insertion order), otherwise append.  Keys of an
embedded dict are unique, so replacing the first occurrence is the Python
behavior. -/
def dictSet : List (String × Value) → String → Value → List (String × Value)
  | [], k, v => [(k, v)]
  | kv :: kvs, k, v => if kv.1 == k then (k, v) :: kvs else kv :: dictSet kvs k v

/-- Python `d1.update(d2)`: fold the assignments of `d2` into `d1` in order. -/
def dictUpdate (d1 d2 : List (String × Value)) : List (String × Value) :=
  d2.foldl (fun acc kv => dictSet acc kv.1 kv.2) d1

/-- Python truthiness of a value (`if x:`). -/
def pyTruthy : Value → Bool
  | .str s => s ≠ ""
  | .int n => n ≠ 0
  | .float q => q ≠ 0
  | .bool b => b
  | .list vs => !vs.isEmpty
  | .dict kvs => !kvs.isEmpty
  | .none => false

/-- Decimal rendering of an embedded float.  Python prints floats in decimal;
for the rationals arising in this development a plain rational rendering is
used instead (no claim evaluates `str` on a float). -/
def pyStrFloat (q : ℚ) : String := toString q

mutual
/-- Python `repr` of a value, as used when a value is interpolated inside a
container rendering (strings get quoted).  Quoting is the simple single-quote
form; escape subtleties of `repr` are not exercised by any claim. -/
def pyRepr : Value → String
  | .str s => "'" ++ s ++ "'"
  | .int n => toString n
  | .float q => pyStrFloat q
  | .bool b => if b then "True" else "False"
  | .list vs => "[" ++ String.intercalate ", " (pyReprList vs) ++ "]"
  | .dict kvs => "\x7b" ++ String.intercalate ", " (pyReprPairs kvs) ++ "\x7d"
  | .none => "None"

def pyReprList : List Value → List String
  | [] => []
  | v :: vs => pyRepr v :: pyReprList vs

def pyReprPairs : List (String × Value) → List String
  | [] => []
  | kv :: kvs => ("'" ++ kv.1 ++ "': " ++ pyRepr kv.2) :: pyReprPairs kvs
end

/-- Python `str` of a value (f-string interpolation): a string interpolates
as itself, containers through `repr` of their elements. -/
def pyStr : Value → String
  | .str s => s
  | .int n => toString n
  | .float q => pyStrFloat q
  | .bool b => if b then "True" else "False"
  | .list vs => "[" ++ String.intercalate ", " (pyReprList vs) ++ "]"
  | .dict kvs => "\x7b" ++ String.intercalate ", " (pyReprPairs kvs) ++ "\x7d"
  | .none => "None"

/-- Python `v.get(k, default)`: a method lookup that raises `AttributeError`
unless `v` is a dict. -/
def valueGet (v : Value) (k : String) (default : Value) : Except String Value :=
  match v with
  | .dict kvs => .ok (dictGet kvs k default)
  | _ => .error "AttributeError: get"

/-- Python iteration `for x in v`: lists yield elements, strings yield
one-character strings, dicts yield their keys, everything else raises
`TypeError`. -/
def pyIter : Value → Except String (List Value)
  | .list vs => .ok vs
  | .str s => .ok (s.data.map (fun c => .str (String.mk [c])))
  | .dict kvs => .ok (kvs.map (fun kv => .str kv.1))
  | _ => .error "TypeError: not iterable"

/-- Python slice `v[:n]` on lists and strings; other values raise
`TypeError`. -/
def pySlice (v : Value) (n : Nat) : Except String Value :=
  match v with
  | .list vs => .ok (.list (vs.take n))
  | .str s => .ok (.str (String.mk (s.data.take n)))
  | _ => .error "TypeError: not subscriptable"

/-- Python `len(v)` on sized values; other values raise `TypeError`. -/
def pyLen : Value → Except String Nat
  | .list vs => .ok vs.length
  | .str s => .ok s.length
  | .dict kvs => .ok kvs.length
  | _ => .error "TypeError: no len"

/-- Split of a character list at a separator character: no collapsing of
adjacent separators, and the empty input yields one empty field — the
semantics of Python `str.split` with an explicit one-character separator. -/
def splitOnChar (sep : Char) : List Char → List (List Char)
  | [] => [[]]
  | c :: cs =>
      match splitOnChar sep cs with
      | [] => [[]]
      | g :: gs => if c = sep then [] :: g :: gs else (c :: g) :: gs

/-- Python `s.split(sep)` for a one-character separator. -/
def pySplit (v : Value) (sep : Char) : Except String (List String) :=
  match v with
  | .str s => .ok ((splitOnChar sep s.data).map String.mk)
  | _ => .error "AttributeError: split"

/-- Drop of leading characters satisfying a predicate. -/
def dropWhileChar (p : Char → Bool) : List Char → List Char
  | [] => []
  | c :: cs => if p c then dropWhileChar p cs else c :: cs

/-- Python `s.strip()`: whitespace stripped from both ends (the whitespace
characters exercised by this code are the ASCII ones covered by
`Char.isWhitespace`). -/
def pyStrip (s : String) : String :=
  String.mk ((dropWhileChar Char.isWhitespace
    ((dropWhileChar Char.isWhitespace s.data.reverse).reverse)))

/-- Python `s.capitalize()`: first character uppercased, every later
character lowercased; the empty string maps to itself. -/
def pyCapitalize (s : String) : String :=
  match s.data with
  | [] => ""
  | c :: cs => String.mk (c.toUpper :: cs.map Char.toLower)

/-! Preprocessor (`AnalysisEngine.preprocess_data`, `extract_text`,
`process_search_results`, src/analysis.py lines 41-54). -/

/-- One step of the comprehension in `extract_text`: the filter
`a.get('description')` runs first (raising `AttributeError` when `a` is not
a dict), then the f-string reads `a['title']` (raising `KeyError` when the
key is missing) and `a['description']`. -/
def extractOne (a : Value) : Except String (Option String) :=
  match a with
  | .dict kvs =>
      if pyTruthy (dictGet kvs "description" Value.none) then
        match dictLookup kvs "title" with
        | some t => .ok (some (pyStr t ++ ": " ++ pyStr (dictGet kvs "description" Value.none)))
        | Option.none => .error "KeyError: title"
      else .ok Option.none
  | _ => .error "AttributeError: get"

/-- Embedding of `AnalysisEngine.extract_text`. -/
def extract_text (articles : Value) : Except String (List String) := do
  let as ← pyIter articles
  let picked ← as.mapM extractOne
  return picked.filterMap id

/-- One line of the generator in `process_search_results`:
`f-string of r.get("title", "") and r.get("snippet", "")`. -/
def searchLine (r : Value) : Except String String :=
  match r with
  | .dict kvs =>
      .ok (pyStr (dictGet kvs "title" (.str "")) ++ ": " ++ pyStr (dictGet kvs "snippet" (.str "")))
  | _ => .error "AttributeError: get"

/-- Embedding of `AnalysisEngine.process_search_results`. -/
def process_search_results (results : Value) : Except String String := do
  let organic ← valueGet results "organic_results" (.list [])
  let sliced ← pySlice organic 20
  let items ← pyIter sliced
  let lines ← items.mapM searchLine
  return String.intercalate "\n" lines

/-- Embedding of `AnalysisEngine.preprocess_data`. -/
def preprocess_data (raw_data : Value) : Except String (List (String × Value)) := do
  let market_news ← valueGet raw_data "market_news" (.dict [])
  let articles ← valueGet market_news "articles" (.list [])
  let news ← extract_text articles
  let sr ← valueGet raw_data "search_results" (.dict [])
  let search_results ← process_search_results sr
  return [("news", .list (news.map .str)), ("search_results", .str search_results)]

/-! Chunker (`AnalysisEngine.chunk_data`, src/analysis.py lines 82-96). -/

/-- The news loop of `chunk_data`: each article is wrapped as a
one-key dict and appended to `current_chunk`; once the chunk reaches
`max_items` entries it is emitted and the accumulator reset.  A trailing
partial accumulator is dropped when the loop ends. -/
def chunkNewsGo (maxItems : Nat) : List Value → List Value → List Value
  | [], _cur => []
  | a :: as, cur =>
      let cur' := cur ++ [Value.dict [("news", a)]]
      if cur'.length ≥ maxItems then
        Value.dict [("news", .list cur')] :: chunkNewsGo maxItems as []
      else
        chunkNewsGo maxItems as cur'

/-- The search loop of `chunk_data` with explicit loop-count fuel:
`for i in range(0, len(items), max_items)` runs at most `len(items)` steps,
each emitting the slice `items[i:i+max_items]`, so every batch including a
trailing partial one is kept.  The step is `m + 1`, matching a positive
`max_items`. -/
def chunkSearchGoF (m : Nat) : Nat → List Value → List Value
  | _, [] => []
  | 0, _ :: _ => []
  | fuel + 1, i :: rest =>
      Value.dict [("search_results", .list ((i :: rest).take (m + 1)))] ::
        chunkSearchGoF m fuel ((i :: rest).drop (m + 1))

/-- The search loop of `chunk_data` (fuel instantiated to the list length,
which always suffices since each step consumes at least one element). -/
def chunkSearchGo (m : Nat) (items : List Value) : List Value :=
  chunkSearchGoF m items.length items

/-- Embedding of `AnalysisEngine.chunk_data` with its `max_items` parameter
(default 5).  `range` with step 0 raises `ValueError`, which in the source
can only happen for `max_items = 0`. -/
def chunk_data (data : List (String × Value)) (maxItems : Nat := 5) : Except String (List Value) := do
  let newsSliced ← pySlice (dictGet data "news" (.list [])) 20
  let articles ← pyIter newsSliced
  let newsChunks := chunkNewsGo maxItems articles []
  let lines ← pySplit (dictGet data "search_results" (.str "")) '\n'
  let search_items := lines.take 10
  match maxItems with
  | 0 => .error "ValueError: range() arg 3 must not be zero"
  | m + 1 => return newsChunks ++ chunkSearchGo m (search_items.map .str)

/-! Merger (`AnalysisEngine.merge_responses`, src/analysis.py lines 98-109). -/

/-- One assignment of the inner loop of `merge_responses`.  A list value is
extended onto `merged.setdefault(key, [])` (raising `AttributeError` when an
existing value has no `extend`); a dict value is `update`d into
`merged.setdefault(key, \x7b\x7d)` (raising when an existing value has no
`update`); any other value is joined onto `merged.get(key, '')` with a
newline and the result stripped. -/
def mergeOne (merged : List (String × Value)) (key : String) (value : Value) :
    Except String (List (String × Value)) :=
  match value with
  | .list vs =>
      match dictLookup merged key with
      | some (.list old) => .ok (dictSet merged key (.list (old ++ vs)))
      | some _ => .error "AttributeError: extend"
      | Option.none => .ok (dictSet merged key (.list vs))
  | .dict kvs =>
      match dictLookup merged key with
      | some (.dict old) => .ok (dictSet merged key (.dict (dictUpdate old kvs)))
      | some _ => .error "AttributeError: update"
      | Option.none => .ok (dictSet merged key (.dict kvs))
  | v =>
      .ok (dictSet merged key
        (.str (pyStrip (pyStr (dictGet merged key (.str "")) ++ "\n" ++ pyStr v))))

/-- One iteration of the outer loop of `merge_responses`: fold the items of
one response into the accumulator.  Iterating `.items()` raises
`AttributeError` on a non-dict response. -/
def mergeResponse (merged : List (String × Value)) (r : Value) :
    Except String (List (String × Value)) :=
  match r with
  | .dict kvs => kvs.foldlM (fun m kv => mergeOne m kv.1 kv.2) merged
  | _ => .error "AttributeError: items"

/-- Embedding of `AnalysisEngine.merge_responses`: fold every response's
items into the accumulator, in response order. -/
def merge_responses (responses : List Value) : Except String (List (String × Value)) :=
  responses.foldlM mergeResponse []

/-! Postprocessor stage 1: `AnalysisEngine.normalize_texts`
(src/analysis.py lines 188-202). -/

mutual
/-- The inner `process_value` of `normalize_texts`: strings are stripped and
capitalized, dicts and lists are walked recursively, other values pass
through unchanged. -/
def process_value : Value → Value
  | .str s => .str (pyCapitalize (pyStrip s))
  | .dict kvs => .dict (process_valuePairs kvs)
  | .list vs => .list (process_valueList vs)
  | .int n => .int n
  | .float q => .float q
  | .bool b => .bool b
  | .none => .none

def process_valueList : List Value → List Value
  | [] => []
  | v :: vs => process_value v :: process_valueList vs

def process_valuePairs : List (String × Value) → List (String × Value)
  | [] => []
  | kv :: kvs => (kv.1, process_value kv.2) :: process_valuePairs kvs
end

/-- The `text_fields` list of `normalize_texts`. -/
def text_fields : List String := ["trends", "competitive_landscape", "summary"]

/-- Embedding of `AnalysisEngine.normalize_texts`. -/
def normalize_texts (analysis : List (String × Value)) : List (String × Value) :=
  text_fields.foldl
    (fun a field =>
      if a.any (fun kv => kv.1 == field) then
        dictSet a field (process_value (dictGet a field Value.none))
      else a)
    analysis

/-! Postprocessor stage 2: `AnalysisEngine.remove_duplicates`
(src/analysis.py lines 204-220). -/

/-- Hashable scalar values: everything except lists and dicts.  Python's
`hash` on a `frozenset` of dict items requires every value to be hashable
and raises `TypeError` otherwise. -/
inductive Atom where
  | str (s : String)
  | int (n : Int)
  | float (q : ℚ)
  | bool (b : Bool)
  | none
deriving DecidableEq

/-- The hashable scalar underlying a value, when there is one. -/
def toAtom : Value → Option Atom
  | .str s => some (.str s)
  | .int n => some (.int n)
  | .float q => some (.float q)
  | .bool b => some (.bool b)
  | .none => some Atom.none
  | _ => Option.none

/-- Canonical dedup key produced by `create_hash`.  Python hashes are
idealized as injective on these canonical forms (hash collisions between
structurally different values are ignored, as is Python's cross-type
numeric equality `1 == 1.0 == True`, which no claim exercises). -/
inductive HashKey where
  | ofStr (s : String)
  | ofItems (items : List (String × Atom))
deriving DecidableEq

/-- Lexicographic comparison of character lists by code point, the Python
`str` ordering used by `sorted`. -/
def charListLe : List Char → List Char → Bool
  | [], _ => true
  | _ :: _, [] => false
  | a :: as, b :: bs =>
      if a.toNat < b.toNat then true
      else if b.toNat < a.toNat then false
      else charListLe as bs

/-- Insertion step of the key-ascending sort mirroring Python `sorted` on
dict items (keys are unique, so stability is moot). -/
def insertPair (p : String × Atom) : List (String × Atom) → List (String × Atom)
  | [] => [p]
  | q :: qs => if charListLe p.1.data q.1.data then p :: q :: qs else q :: insertPair p qs

/-- Key-ascending insertion sort on dict items (Python `sorted(d.items())`). -/
def sortPairs : List (String × Atom) → List (String × Atom)
  | [] => []
  | p :: ps => insertPair p (sortPairs ps)

/-- Embedding of the inner `create_hash` of `remove_duplicates`:
`hash(frozenset(sorted(item.items())))` for a dict (raising `TypeError` when
some value is unhashable, i.e. a list or dict), `hash(str(item))` otherwise. -/
def create_hash (item : Value) : Except String HashKey :=
  match item with
  | .dict kvs =>
      match kvs.mapM (fun kv => (toAtom kv.2).map (fun a => (kv.1, a))) with
      | some pairs => .ok (.ofItems (sortPairs pairs))
      | Option.none => .error "TypeError: unhashable type"
  | v => .ok (.ofStr (pyStr v))

/-- The dedup loop of `remove_duplicates`: keep an item when its hash has
not been seen, in first-seen order. -/
def dedupGo (seen : List HashKey) : List Value → Except String (List Value)
  | [] => .ok []
  | v :: vs => do
      let h ← create_hash v
      if h ∈ seen then dedupGo seen vs
      else do
        let rest ← dedupGo (h :: seen) vs
        return v :: rest

/-- The key list of `remove_duplicates`. -/
def dedup_keys : List String := ["trends", "strengths", "weaknesses"]

/-- Embedding of `AnalysisEngine.remove_duplicates`.  Note that
`for item in analysis[key]` iterates whatever value sits under the key
(a dict yields its keys), and the key is afterwards overwritten with the
accumulated list. -/
def remove_duplicates (analysis : List (String × Value)) :
    Except String (List (String × Value)) :=
  dedup_keys.foldlM
    (fun a key =>
      if a.any (fun kv => kv.1 == key) then do
        let items ← pyIter (dictGet a key Value.none)
        let uniq ← dedupGo [] items
        return dictSet a key (.list uniq)
      else return a)
    analysis

/-! Postprocessor stage 3: `AnalysisEngine.validate_data_structure`
(src/analysis.py lines 222-232).  The source only reads fields and prints
warnings; the embedding returns the analysis together with the warning
lines (the rendering of the Python set `missing` is abstracted to a sorted
field list, which no claim depends on). -/

/-- Warnings for one competitor entry.  `competitor.keys()` raises
`AttributeError` on a non-dict entry.  `isinstance(x, (int, float))` counts
Python bools as ints. -/
def validateCompetitor (competitor : Value) : Except String (List String) :=
  match competitor with
  | .dict kvs =>
      let missing := ["market_share", "name"].filter (fun f => !(kvs.any (fun kv => kv.1 == f)))
      let w1 :=
        if !missing.isEmpty then
          ["Missing field in competitors " ++ pyStr (dictGet kvs "name" Value.none) ++ ": "
            ++ String.intercalate ", " missing]
        else []
      let w2 :=
        match dictGet kvs "market_share" (.int 0) with
        | .int _ => []
        | .float _ => []
        | .bool _ => []
        | _ => ["Invalid value in market_share for " ++ pyStr (dictGet kvs "name" Value.none)]
      .ok (w1 ++ w2)
  | _ => .error "AttributeError: keys"

/-- Embedding of `AnalysisEngine.validate_data_structure`; the guard is the
Python membership test `'competitors' in analysis`. -/
def validate_data_structure (analysis : List (String × Value)) :
    Except String (List (String × Value) × List String) :=
  if analysis.any (fun kv => kv.1 == "competitors") then do
    let tc ← valueGet (dictGet analysis "competitors" Value.none) "top_competitors" (.list [])
    let items ← pyIter tc
    let warns ← items.mapM validateCompetitor
    return (analysis, warns.flatten)
  else return (analysis, [])

/-! Postprocessor stage 4: `AnalysisEngine.strategic_sorting`
(src/analysis.py lines 234-257). -/

/-- Digit-string accumulation used by the decimal parser. -/
def digitsToNat (cs : List Char) : Option ℕ :=
  cs.foldlM (fun acc c => if c.isDigit then some (acc * 10 + (c.toNat - 48)) else Option.none) 0

/-- Parse of a plain decimal numeral as accepted by Python `float()`
(optional sign, digits, optional fractional part, surrounding whitespace).
Exotic accepted forms (exponents, `inf`, `nan`, underscores) are not
modelled; no claim exercises string-to-float coercion. -/
def parseDecimal (s : String) : Option ℚ :=
  let t := s.trim
  let sign : ℚ := if t.startsWith "-" then -1 else 1
  let body := if t.startsWith "-" || t.startsWith "+" then t.drop 1 else t
  match body.splitOn "." with
  | [intPart] =>
      if intPart.isEmpty then Option.none
      else (digitsToNat intPart.data).map (fun n => sign * n)
  | [intPart, fracPart] =>
      if intPart.isEmpty && fracPart.isEmpty then Option.none
      else
        match digitsToNat intPart.data, digitsToNat fracPart.data with
        | some i, some f => some (sign * ((i : ℚ) + (f : ℚ) / (10 ^ fracPart.length)))
        | _, _ => Option.none
  | _ => Option.none

/-- Python `float(v)` coercion. -/
def pyFloat : Value → Except String ℚ
  | .int n => .ok n
  | .float q => .ok q
  | .bool b => .ok (if b then 1 else 0)
  | .str s =>
      match parseDecimal s with
      | some q => .ok q
      | Option.none => .error "ValueError: could not convert string to float"
  | _ => .error "TypeError: float() argument"

/-- The inner `safe_get` of `strategic_sorting`: read `key` from a dict
(0.0 from a non-dict), coerce to float, and fall back to the 0.0 default on
`None` or a failing coercion. -/
def safe_get (value : Value) (key : String) : ℚ :=
  let val := match value with
    | .dict kvs => dictGet kvs key (.float 0)
    | _ => Value.float 0
  match val with
  | .none => 0
  | v =>
      match pyFloat v with
      | .ok q => q
      | .error _ => 0

/-- Valid trend test of `strategic_sorting`:
`isinstance(t, dict) and 'impact_score' in t`. -/
def isValidTrend (t : Value) : Bool :=
  match t with
  | .dict kvs => kvs.any (fun kv => kv.1 == "impact_score")
  | _ => false

/-- Insertion step of the stable descending sort modelling Python
`list.sort(key=…, reverse=True)`: an element goes in front of the first
element whose key is not larger, so equal keys keep original order. -/
def insertDescBy (key : Value → ℚ) (x : Value) : List Value → List Value
  | [] => [x]
  | y :: ys => if key x ≥ key y then x :: y :: ys else y :: insertDescBy key x ys

/-- Stable descending insertion sort. -/
def sortDescBy (key : Value → ℚ) : List Value → List Value
  | [] => []
  | x :: xs => insertDescBy key x (sortDescBy key xs)

/-- Embedding of `AnalysisEngine.strategic_sorting`. -/
def strategic_sorting (analysis : List (String × Value)) :
    Except String (List (String × Value)) :=
  if analysis.any (fun kv => kv.1 == "trends") then do
    let ts ← pyIter (dictGet analysis "trends" Value.none)
    let valid_trends := sortDescBy (fun x => safe_get x "impact_score") (ts.filter isValidTrend)
    let invalid_trends := ts.filter (fun t => !isValidTrend t)
    return dictSet analysis "trends" (.list (valid_trends ++ invalid_trends))
  else .ok analysis

/-! Postprocessor stage 5: `AnalysisEngine.validate_analysis_quality`
(src/analysis.py lines 259-276); like stage 3 it only reads and prints. -/

/-- Embedding of `AnalysisEngine.validate_analysis_quality`. -/
def validate_analysis_quality (analysis : List (String × Value)) :
    Except String (List (String × Value) × List String) := do
  let competitors ← valueGet (dictGet analysis "competitors" (.dict [])) "top_competitors" (.list [])
  let nc ← pyLen competitors
  let w1 := if nc < 2 then ["Warning: Only " ++ toString nc ++ " competitors identified"] else []
  let nt ← pyLen (dictGet analysis "trends" (.list []))
  let w2 := if nt < 2 then ["Warning: Only " ++ toString nt ++ " trends identified"] else []
  let sw ← valueGet (dictGet analysis "swot" (.dict [])) "weaknesses" (.dict [])
  let weaknesses ← valueGet sw "evidence" (.list [])
  let nw ← pyLen weaknesses
  let w3 := if nw > 5 then ["Warning: " ++ toString nw ++ " weaknesses found"] else []
  return (analysis, w1 ++ w2 ++ w3)

/-! Postprocessor stage 6: `AnalysisEngine.add_metadata` and
`calculate_quality_score` (src/analysis.py lines 278-291).  Python float
arithmetic is embedded as exact rational arithmetic; on the quantities
involved (tenths clamped to small bounds) the two agree on every value a
claim mentions. -/

/-- Embedding of `AnalysisEngine.calculate_quality_score`. -/
def calculate_quality_score (analysis : List (String × Value)) : Except String ℚ := do
  let trend_count ← pyLen (dictGet analysis "trends" (.list []))
  return Min.min ((3 : ℚ)/10 + Min.min ((trend_count : ℚ) * (1/10)) ((3 : ℚ)/10)) 1

/-- Embedding of `AnalysisEngine.add_metadata`; the wall-clock timestamp
`datetime.now(timezone.utc).isoformat()` is passed in as the parameter
`now`. -/
def add_metadata (now : String) (analysis : List (String × Value)) :
    Except String (List (String × Value)) := do
  let q ← calculate_quality_score analysis
  return dictSet analysis "metadata" (.dict
    [("processing_date", .str now),
     ("data_sources", .list [.str "web_search"]),
     ("model_version", .str "gpt-4-1106-preview"),
     ("quality_score", .float q)])

/-- Embedding of `AnalysisEngine.postprocess_analysis`: the six stages in
their fixed order, threading the warning lines of the two validators. -/
def postprocess_analysis (now : String) (analysis : List (String × Value)) :
    Except String (List (String × Value) × List String) := do
  let a1 := normalize_texts analysis
  let a2 ← remove_duplicates a1
  let v1 ← validate_data_structure a2
  let a3 ← strategic_sorting v1.1
  let v2 ← validate_analysis_quality a3
  let a4 ← add_metadata now v2.1
  return (a4, v1.2 ++ v2.2)

/-! Prompts (`AnalysisEngine.__init__`, `get_system_prompt`,
`analyze_competitors`, `swot_analysis`).  The JSON-schema prompt texts are
reproduced with brace characters written as escapes; the surrounding
indentation of the Python triple-quoted literals is not significant for any
claim and is normalized to single newlines. -/

/-- Task prompt `analysis_prompts['trends']`. -/
def trendsTaskPrompt : String :=
  "Identify key market trends supported by quantitative and qualitative data"

/-- Task prompt `analysis_prompts['competitors']`. -/
def competitorsTaskPrompt : String :=
  "Analyze key competitors considering:\n- Market share\n- Competitive advantages\n- Recent strategic moves\n- key financials"

/-- Task prompt `analysis_prompts['swot']`. -/
def swotTaskPrompt : String :=
  "Conduct a detailed SWOT analysis considering:\n1. Target market strengths\n2. Current weaknesses\n3. Emerging opportunities\n4. Competitive threats"

/-- The `analysis_prompts` dict built in `AnalysisEngine.__init__`. -/
def analysis_prompts : List (String × String) :=
  [("trends", trendsTaskPrompt),
   ("competitors", competitorsTaskPrompt),
   ("swot", swotTaskPrompt)]

/-- System prompt of `get_system_prompt` for the trends schema. -/
def trendsSchemaPrompt : String :=
  "Generates a trend analysis in JSON format:\n\x7b\n\"trends\": [\x7b\n\"name\": str,\n\"description\": str,\n\"evidence\": [str],\n\"impact_score\": float\n\x7d],\n\"summary\": str\n\x7d"

/-- System prompt of `get_system_prompt` for the competitors schema. -/
def competitorsSchemaPrompt : String :=
  "Returns JSON with:\n\x7b\n\"top_competitors\": [\x7b\n\"name\": str,\n\"market_share\": float,\n\"strengths\": [str],\n\"weaknesses\": [str],\n\"recent_activity\": [str]\n\x7d],\n\"competitive_landscape\": str\n\x7d"

/-- System prompt of `get_system_prompt` for the SWOT schema. -/
def swotSchemaPrompt : String :=
  "Returns SWOT in JSON format:\n\x7b\n\"strengths\": \x7b \"description\": str, \"evidence\": [str] \x7d,\n\"weaknesses\": \x7b \"description\": str, \"evidence\": [str] \x7d,\n\"opportunities\": \x7b \"description\": str, \"evidence\": [str] \x7d,\n\"threats\": \x7b \"description\": str, \"evidence\": [str] \x7d\n\x7d"

/-- Embedding of `AnalysisEngine.get_system_prompt`. -/
def get_system_prompt (analysis_type : String) : String :=
  if analysis_type == "trends" then trendsSchemaPrompt
  else if analysis_type == "competitors" then competitorsSchemaPrompt
  else if analysis_type == "swot" then swotSchemaPrompt
  else "Parses data and returns results in JSON format"

/-- Inline system prompt of `AnalysisEngine.analyze_competitors`. -/
def competitorsAnalystPrompt : String :=
  "You are a senior strategic analyst. Return JSON with:\n\x7b\n\"top_competitors\": [\x7b\n\"name\": str,\n\"market_share\": float,\n\"strengths\": [str],\n\"weaknesses\": [str],\n\"recent_activity\": [str]\n\x7d],\n\"competitive_landscape\": str\n\x7d"

/-- Inline system prompt of `AnalysisEngine.swot_analysis` (same words as
the schema prompt of `get_system_prompt`, differing only in layout). -/
def swotInlinePrompt : String := swotSchemaPrompt

/-! Invoker and retry (`AnalysisEngine.structured_analysis`,
src/analysis.py lines 63-80).  The LLM capability is an external
collaborator: it is a parameter taking the system prompt and the full user
message and yielding either the parsed JSON value of the response or an
error (network failure or `json.loads` failure).  One whole-body attempt of
`structured_analysis` is a pure function of that capability. -/

/-- One attempt of the body of `structured_analysis`: chunk the data, query
the capability once per chunk with the task prompt prefixed to the chunk's
rendering, and merge the parsed responses. -/
def structured_analysis_once (llm : String → String → Except String Value)
    (data : List (String × Value)) (system_prompt user_prompt : String) :
    Except String Value := do
  let chunks ← chunk_data data
  let responses ← chunks.mapM
    (fun chunk => llm system_prompt (user_prompt ++ "\n\nRelevant data:\n" ++ pyStr chunk))
  let merged ← merge_responses responses
  return .dict merged

/-- Modelled from the spec: the library combinator
`tenacity.wait_exponential(multiplier, min, max)` whose parameters appear on
the decorator at src/analysis.py line 63; the combinator itself is library
code outside src/.  The wait before retry number `attemptNumber` is
`multiplier * 2 ^ attemptNumber` clamped into the band from `minW` to
`maxW` (seconds, embedded as rationals). -/
def wait_exponential (multiplier minW maxW : ℚ) (attemptNumber : Nat) : ℚ :=
  Max.max (Max.max 0 minW) (Min.min (multiplier * 2 ^ attemptNumber) maxW)

/-- Modelled from the spec: the retry loop of the `tenacity.retry` decorator
with `stop_after_attempt`, which is library code outside src/.  The
side-effecting attempts are an oracle `once` indexed by attempt number
(starting at 1); the result is paired with the list of waits slept between
attempts.  When the attempt budget is exhausted the last error propagates
to the caller. -/
def retryGo (once : Nat → Except String Value) (wait : Nat → ℚ) :
    Nat → Nat → Except String Value × List ℚ
  | k, 0 => (once k, [])
  | k, 1 => (once k, [])
  | k, fuel + 2 =>
      match once k with
      | .ok v => (.ok v, [])
      | .error _ =>
          let r := retryGo once wait (k + 1) (fuel + 1)
          (r.1, wait k :: r.2)

/-- The `stop_after_attempt` bound of the decorator at src/analysis.py
line 63. -/
def stop_after_attempt : Nat := 3

/-- Embedding of the decorated `AnalysisEngine.structured_analysis`: up to
three attempts of the body, with `wait_exponential(multiplier=1, min=4,
max=10)` backoff between failed attempts.  The capability oracle `llmAt` is
indexed by attempt number, so distinct attempts may behave differently. -/
def structured_analysis (llmAt : Nat → String → String → Except String Value)
    (data : List (String × Value)) (system_prompt user_prompt : String) :
    Except String Value × List ℚ :=
  retryGo (fun k => structured_analysis_once (llmAt k) data system_prompt user_prompt)
    (wait_exponential 1 4 10) 1 stop_after_attempt

/-! Orchestrator (`AnalysisEngine.analyze_trends`, `analyze_with_fallback`,
`analyze_competitors`, `swot_analysis`, src/analysis.py lines 26-39,
56-61, 145-177). -/

/-- Embedding of `AnalysisEngine.analyze_with_fallback`. -/
def analyze_with_fallback (llmAt : Nat → String → String → Except String Value)
    (data : List (String × Value)) (prompt : String) (analysis_type : String) :
    Except String Value :=
  (structured_analysis llmAt data (get_system_prompt analysis_type) prompt).1

/-- Embedding of `AnalysisEngine.analyze_competitors`. -/
def analyze_competitors (llmAt : Nat → String → String → Except String Value)
    (data : List (String × Value)) : Except String Value :=
  (structured_analysis llmAt data competitorsAnalystPrompt competitorsTaskPrompt).1

/-- Embedding of `AnalysisEngine.swot_analysis`. -/
def swot_analysis (llmAt : Nat → String → String → Except String Value)
    (data : List (String × Value)) : Except String Value :=
  (structured_analysis llmAt data swotInlinePrompt swotTaskPrompt).1

/-- Embedding of `AnalysisEngine.analyze_trends`, the full pipeline:
preprocess, run the three analysis types, postprocess.  The capability
oracle and the metadata timestamp are parameters. -/
def analyze_trends (llmAt : Nat → String → String → Except String Value)
    (now : String) (data : Value) :
    Except String (List (String × Value) × List String) := do
  let processed ← preprocess_data data
  let trends ← analyze_with_fallback llmAt processed trendsTaskPrompt "trends"
  let competitors ← analyze_competitors llmAt processed
  let swot ← swot_analysis llmAt processed
  postprocess_analysis now
    [("trends", trends), ("competitors", competitors), ("swot", swot)]

/-! Specification-side definitions, written from the spec's words, used to
state the claims about the code. -/

/-- Consecutive batches of size `m + 1` with explicit fuel (loop count). -/
def batchesF (m : Nat) : Nat → List α → List (List α)
  | _, [] => []
  | 0, _ :: _ => []
  | fuel + 1, x :: xs => ((x :: xs).take (m + 1)) :: batchesF m fuel ((x :: xs).drop (m + 1))

/-- Consecutive batches of size `m + 1`, in order, with a trailing partial
batch kept (the spec's grouping policy for search-result lines; filtering it
to the full batches gives the spec's policy for news items). -/
def batches (m : Nat) (l : List α) : List (List α) :=
  batchesF m l.length l

/-- The postprocessing chain with the two warning-only validator stages
removed: per the spec they are read-only observers, so this chain must
produce the same analysis value as `postprocess_analysis`. -/
def postprocessCore (now : String) (analysis : List (String × Value)) :
    Except String (List (String × Value)) := do
  let a1 := normalize_texts analysis
  let a2 ← remove_duplicates a1
  let a3 ← strategic_sorting a2
  add_metadata now a3

/-! Library lemmas about the embedded dict operations. -/

theorem dictLookup_nil (k : String) : dictLookup [] k = Option.none := rfl

theorem dictLookup_cons (kv : String × Value) (kvs : List (String × Value)) (k : String) :
    dictLookup (kv :: kvs) k = if kv.1 = k then some kv.2 else dictLookup kvs k := by
  by_cases h : kv.1 = k
  · have hb : (kv.1 == k) = true := by simp [h]
    simp [dictLookup, List.find?, hb, h]
  · have hb : (kv.1 == k) = false := by simp [h]
    simp [dictLookup, List.find?, hb, h]

theorem dictLookup_dictSet (a : List (String × Value)) (k : String) (v : Value) (k' : String) :
    dictLookup (dictSet a k v) k' = if k' = k then some v else dictLookup a k' := by
  induction a with
  | nil =>
      show dictLookup [(k, v)] k' = _
      rw [dictLookup_cons]
      by_cases h : k' = k
      · simp [h]
      · simp [h, Ne.symm h]
  | cons kv kvs ih =>
      by_cases h : kv.1 = k
      · have hb : (kv.1 == k) = true := by simp [h]
        simp only [dictSet, hb, if_true]
        rw [dictLookup_cons, dictLookup_cons, h]
        by_cases h' : k' = k
        · simp [h']
        · simp [Ne.symm h', h']
      · have hb : (kv.1 == k) = false := by simp [h]
        simp only [dictSet, hb, Bool.false_eq_true, if_false]
        rw [dictLookup_cons, dictLookup_cons, ih]
        by_cases h' : k' = k
        · have e2 : ¬ kv.1 = k' := fun hc => h (hc.trans h')
          simp [h', e2, h]
        · simp [h']

theorem any_key_eq_isSome (a : List (String × Value)) (k : String) :
    (a.any (fun kv => kv.1 == k)) = (dictLookup a k).isSome := by
  induction a with
  | nil => rfl
  | cons kv kvs ih =>
      by_cases h : kv.1 = k <;> simp [dictLookup_cons, h, ih]

theorem dictGet_of_lookup {a : List (String × Value)} {k : String} {v : Value} (d : Value)
    (h : dictLookup a k = some v) : dictGet a k d = v := by
  simp [dictGet, h]

theorem dictGet_of_lookup_none {a : List (String × Value)} {k : String} (d : Value)
    (h : dictLookup a k = Option.none) : dictGet a k d = d := by
  simp [dictGet, h]

/-! Concrete end-to-end scenario of the spec's testable property: a raw
market-data value with 6 news items (all with descriptions) and 3
search-result lines, and a stub LLM capability returning fixed JSON per
analysis type (dispatching on the system prompt). -/

/-- A news article with title `t<i>` and description `d<i>`. -/
def article (i : Nat) : Value :=
  .dict [("title", .str ("t" ++ toString i)), ("description", .str ("d" ++ toString i))]

/-- A search result with title `st<i>` and snippet `sn<i>`. -/
def sres (i : Nat) : Value :=
  .dict [("title", .str ("st" ++ toString i)), ("snippet", .str ("sn" ++ toString i))]

/-- Raw market data: 6 news articles, 3 organic search results. -/
def rawInput : Value :=
  .dict [("market_news", .dict [("articles", .list ((List.range 6).map (fun i => article (i + 1))))]),
         ("search_results", .dict [("organic_results", .list ((List.range 3).map (fun i => sres (i + 1))))])]

/-- A trend mapping following the trends schema. -/
def trendItem : Value :=
  .dict [("name", .str "ev adoption"), ("description", .str "Rising"),
         ("evidence", .list [.str "e1"]), ("impact_score", .float (9/10))]

/-- Fixed stub response for the trends analysis type. -/
def trendsStubResponse : Value :=
  .dict [("trends", .list [trendItem]), ("summary", .str "growing fast")]

/-- A competitor mapping following the competitors schema. -/
def comp1 : Value :=
  .dict [("name", .str "Acme"), ("market_share", .float 30),
         ("strengths", .list [.str "scale"]), ("weaknesses", .list [.str "cost"]),
         ("recent_activity", .list [.str "deals"])]

/-- Fixed stub response for the competitors analysis type. -/
def competitorsStubResponse : Value :=
  .dict [("top_competitors", .list [comp1]), ("competitive_landscape", .str "concentrated")]

/-- A SWOT category mapping with description `d`. -/
def swotCat (d : String) : Value :=
  .dict [("description", .str d), ("evidence", .list [.str (d ++ "1")])]

/-- Fixed stub response for the SWOT analysis type, with all four
categories. -/
def swotStubResponse : Value :=
  .dict [("strengths", swotCat "sg"), ("weaknesses", swotCat "wk"),
         ("opportunities", swotCat "op"), ("threats", swotCat "th")]

/-- The stub LLM capability: deterministic across attempts, dispatching on
the system prompt of the three analysis types. -/
def llmStub (_k : Nat) (sys : String) (_user : String) : Except String Value :=
  if sys == get_system_prompt "trends" then .ok trendsStubResponse
  else if sys == competitorsAnalystPrompt then .ok competitorsStubResponse
  else if sys == swotInlinePrompt then .ok swotStubResponse
  else .error "unknown system prompt"

set_option maxRecDepth 10000

/-- C1.  The claim expects the final top-level `trends` key to hold a list
of trend mappings sorted descending by `impact_score`.  Evaluating the full
pipeline on the end-to-end scenario (6 news items with descriptions, 3
search-result lines, fixed per-type stub JSON) shows the code instead
delivers `trends = ['trends', 'summary']` — the list of the merged trend
response's key names: `analyze_trends` stores the whole merged response
mapping under `trends`, and `remove_duplicates` then iterates that mapping
(yielding its keys) and overwrites the field with them.  The other
renderer-guaranteed parts do hold on this run: `swot` keeps its four
categories and `competitors.top_competitors` is a non-empty list of
competitor mappings. -/
theorem C1_trends_key_clobbered :
    (analyze_trends llmStub "NOW" rawInput).map (fun r => dictLookup r.1 "trends")
        = .ok (some (.list [.str "trends", .str "summary"])) ∧
    (analyze_trends llmStub "NOW" rawInput).map (fun r => dictLookup r.1 "swot")
        = .ok (some swotStubResponse) ∧
    (analyze_trends llmStub "NOW" rawInput).map (fun r => dictLookup r.1 "competitors")
        = .ok (some (.dict [("top_competitors", .list [comp1, comp1]),
                            ("competitive_landscape", .str "concentrated\nconcentrated")])) :=
  ⟨rfl, rfl, rfl⟩

/-! Claim C2: the normalize stage. -/

theorem process_valueList_eq (vs : List Value) :
    process_valueList vs = vs.map process_value := by
  induction vs with
  | nil => simp [process_valueList]
  | cons v vs ih => simp [process_valueList, ih]

theorem process_valuePairs_eq (kvs : List (String × Value)) :
    process_valuePairs kvs = kvs.map (fun kv => (kv.1, process_value kv.2)) := by
  induction kvs with
  | nil => simp [process_valuePairs]
  | cons kv kvs ih => simp [process_valuePairs, ih]

/-- One field update of `normalize_texts` (the body of its loop). -/
def normStep (a : List (String × Value)) (field : String) : List (String × Value) :=
  if a.any (fun kv => kv.1 == field) then
    dictSet a field (process_value (dictGet a field Value.none))
  else a

theorem normalize_texts_eq (a : List (String × Value)) :
    normalize_texts a
      = normStep (normStep (normStep a "trends") "competitive_landscape") "summary" := rfl

theorem normStep_lookup_self (a : List (String × Value)) (f : String) :
    dictLookup (normStep a f) f = (dictLookup a f).map process_value := by
  unfold normStep
  match hv : dictLookup a f with
  | some v =>
      have hs : (dictLookup a f).isSome = true := by simp [hv]
      simp [any_key_eq_isSome, hv, dictLookup_dictSet, dictGet_of_lookup _ hv]
  | Option.none =>
      simp [any_key_eq_isSome, hv]

theorem normStep_lookup_other (a : List (String × Value)) (f g : String) (h : g ≠ f) :
    dictLookup (normStep a f) g = dictLookup a g := by
  unfold normStep
  by_cases hc : a.any (fun kv => kv.1 == f) <;> simp [hc, dictLookup_dictSet, h]

/-- C2, counterexample.  The claim says a normalized string leaf keeps the
casing of every character after the first; the code's `str.capitalize`
lowercases them: the `summary` leaf `AI boom` comes out as `Ai boom`. -/
theorem C2_capitalize_counterexample :
    dictLookup (normalize_texts [("summary", .str "AI boom")]) "summary"
        = some (.str "Ai boom") ∧ ("Ai boom" : String) ≠ "AI boom" :=
  ⟨rfl, by decide⟩

/-- C2, amended.  Under the fields `trends`, `competitive_landscape`,
`summary`, the normalize stage rewrites the value by `process_value`, which
trims every string leaf, uppercases its first character and lowercases all
later characters, walks lists and mappings recursively, and leaves
non-string leaves unchanged. -/
theorem C2_normalize_amended :
    (∀ (a : List (String × Value)) (field : String), field ∈ text_fields →
        dictLookup (normalize_texts a) field = (dictLookup a field).map process_value)
    ∧ (∀ s : String, process_value (.str s) =
        .str (match (pyStrip s).data with
              | [] => ""
              | c :: cs => String.mk (c.toUpper :: cs.map Char.toLower)))
    ∧ (∀ vs, process_value (.list vs) = .list (vs.map process_value))
    ∧ (∀ kvs, process_value (.dict kvs) = .dict (kvs.map (fun kv => (kv.1, process_value kv.2))))
    ∧ (∀ n, process_value (.int n) = .int n)
    ∧ (∀ q, process_value (.float q) = .float q)
    ∧ (∀ b, process_value (.bool b) = .bool b)
    ∧ process_value Value.none = Value.none := by
  refine ⟨?_, ?_, ?_, ?_, ?_, ?_, ?_, ?_⟩
  · intro a field hf
    rw [normalize_texts_eq]
    simp only [text_fields, List.mem_cons, List.not_mem_nil, or_false] at hf
    rcases hf with h | h | h
    all_goals subst h
    · rw [normStep_lookup_other _ _ _ (by decide), normStep_lookup_other _ _ _ (by decide),
        normStep_lookup_self]
    · rw [normStep_lookup_other _ _ _ (by decide), normStep_lookup_self,
        normStep_lookup_other _ _ _ (by decide)]
    · rw [normStep_lookup_self, normStep_lookup_other _ _ _ (by decide),
        normStep_lookup_other _ _ _ (by decide)]
  · intro s
    simp [process_value, pyCapitalize]
  · intro vs
    simp [process_value, process_valueList_eq]
  · intro kvs
    simp [process_value, process_valuePairs_eq]
  · intro n; simp [process_value]
  · intro q; simp [process_value]
  · intro b; simp [process_value]
  · simp [process_value]

/-- C2, witness: the amended normalization applied to a concrete `summary`
field. -/
theorem C2_normalize_amended_witness :
    dictLookup (normalize_texts [("summary", Value.str " hi There")]) "summary"
      = (dictLookup [("summary", Value.str " hi There")] "summary").map process_value :=
  C2_normalize_amended.1 [("summary", Value.str " hi There")] "summary" (by decide)

/-! Claim C3: totality of the preprocessor. -/

/-- Success test on an embedded fallible computation. -/
def exceptOk {ε α : Type} : Except ε α → Bool
  | .ok _ => true
  | .error _ => false

theorem except_bind_ok {ε α β : Type} (a : α) (f : α → Except ε β) :
    (Except.ok a >>= f : Except ε β) = f a := rfl

theorem mapM_except_isOk {α β : Type} (f : α → Except String β) (l : List α)
    (h : ∀ x ∈ l, exceptOk (f x) = true) : exceptOk (l.mapM f) = true := by
  induction l with
  | nil => rfl
  | cons x xs ih =>
      rw [List.mapM_cons]
      have hx := h x (by simp)
      match hfx : f x with
      | .error e => rw [hfx] at hx; simp [exceptOk] at hx
      | .ok y =>
          have hxs := ih (fun z hz => h z (by simp [hz]))
          match hmx : xs.mapM f with
          | .error e => rw [hmx] at hxs; simp [exceptOk] at hxs
          | .ok ys => rfl

/-- A news article shape on which `extract_text` cannot raise: either the
description is missing or falsy (the entry is filtered out) or a `title`
key is present. -/
def wfArticle (a : Value) : Bool :=
  match a with
  | .dict kvs =>
      !(pyTruthy (dictGet kvs "description" Value.none)) || kvs.any (fun kv => kv.1 == "title")
  | _ => false

/-- A search-result entry shape on which the search line can be built: any
mapping. -/
def wfResult (r : Value) : Bool :=
  match r with
  | .dict _ => true
  | _ => false

/-- A well-shaped `articles` value: a list of well-shaped articles. -/
def wfArticles (v : Value) : Bool :=
  match v with
  | .list as => as.all wfArticle
  | _ => false

/-- A well-shaped `market_news` value: a mapping whose `articles` entry
(defaulting to the empty list) is well-shaped. -/
def wfNews (v : Value) : Bool :=
  match v with
  | .dict m => wfArticles (dictGet m "articles" (.list []))
  | _ => false

/-- A well-shaped `organic_results` value: a list of mappings. -/
def wfResults (v : Value) : Bool :=
  match v with
  | .list rs => rs.all wfResult
  | _ => false

/-- A well-shaped `search_results` value: a mapping whose `organic_results`
entry (defaulting to the empty list) is well-shaped. -/
def wfSearch (v : Value) : Bool :=
  match v with
  | .dict s => wfResults (dictGet s "organic_results" (.list []))
  | _ => false

/-- Raw market-data shapes on which the preprocessor is total: each
substructure is either missing (the code's defaults apply) or of the
expected mapping/list shape, and every article passing the description
filter carries a title. -/
def wfRaw (raw : Value) : Bool :=
  match raw with
  | .dict kvs =>
      wfNews (dictGet kvs "market_news" (.dict []))
        && wfSearch (dictGet kvs "search_results" (.dict []))
  | _ => false

theorem extractOne_isOk (a : Value) (h : wfArticle a = true) :
    exceptOk (extractOne a) = true := by
  match a with
  | .dict kvs =>
      simp only [wfArticle] at h
      by_cases ht : pyTruthy (dictGet kvs "description" Value.none)
      · have hany : kvs.any (fun kv => kv.1 == "title") = true := by
          rcases Bool.or_eq_true_iff.mp h with h' | h'
          · rw [ht] at h'; simp at h'
          · exact h'
        rw [any_key_eq_isSome] at hany
        obtain ⟨t, hvt⟩ := Option.isSome_iff_exists.mp hany
        simp [extractOne, ht, hvt, exceptOk]
      · simp [extractOne, ht, exceptOk]
  | .str s => simp [wfArticle] at h
  | .int n => simp [wfArticle] at h
  | .float q => simp [wfArticle] at h
  | .bool b => simp [wfArticle] at h
  | .list vs => simp [wfArticle] at h
  | .none => simp [wfArticle] at h

theorem searchLine_isOk (r : Value) (h : wfResult r = true) :
    exceptOk (searchLine r) = true := by
  match r with
  | .dict kvs => simp [searchLine, exceptOk]
  | .str s => simp [wfResult] at h
  | .int n => simp [wfResult] at h
  | .float q => simp [wfResult] at h
  | .bool b => simp [wfResult] at h
  | .list vs => simp [wfResult] at h
  | .none => simp [wfResult] at h

/-- C3, counterexample.  The claim says the preprocessor never raises, even
on partially-formed substructures; a news article carrying a description
but no title makes `extract_text` raise `KeyError` on `a['title']`. -/
theorem C3_missing_title_raises :
    preprocess_data
        (.dict [("market_news", .dict [("articles", .list [.dict [("description", .str "d")]])])])
      = .error "KeyError: title" := rfl

/-- C3, amended.  The preprocessor returns without raising whenever every
present substructure has the expected mapping/list shape and every article
passing the description filter carries a title (missing substructures
default to empty collections/strings, as the run on the empty mapping
shows); with a description-only article it raises `KeyError`. -/
theorem C3_preprocess_total_amended :
    (∀ raw : Value, wfRaw raw = true → exceptOk (preprocess_data raw) = true)
    ∧ preprocess_data (.dict []) = .ok [("news", .list []), ("search_results", .str "")] := by
  refine ⟨?_, rfl⟩
  intro raw h
  cases raw <;> simp only [wfRaw] at h <;> try exact Bool.noConfusion h
  case dict kvs =>
  obtain ⟨h1, h2⟩ := Bool.and_eq_true_iff.mp h
  cases hm : dictGet kvs "market_news" (.dict []) <;> rw [hm] at h1 <;>
    simp only [wfNews] at h1 <;> try exact Bool.noConfusion h1
  case dict m =>
  cases ha : dictGet m "articles" (.list []) <;> rw [ha] at h1 <;>
    simp only [wfArticles] at h1 <;> try exact Bool.noConfusion h1
  case list as =>
  cases hs : dictGet kvs "search_results" (.dict []) <;> rw [hs] at h2 <;>
    simp only [wfSearch] at h2 <;> try exact Bool.noConfusion h2
  case dict s =>
  cases ho : dictGet s "organic_results" (.list []) <;> rw [ho] at h2 <;>
    simp only [wfResults] at h2 <;> try exact Bool.noConfusion h2
  case list rs =>
  have hext : exceptOk (extract_text (.list as)) = true := by
    have hall := mapM_except_isOk extractOne as
      (fun x hx => extractOne_isOk x (List.all_eq_true.mp h1 x hx))
    have he : extract_text (.list as)
        = (as.mapM extractOne) >>= (fun picked => pure (picked.filterMap id)) := rfl
    match hmm : as.mapM extractOne with
    | .error e => rw [hmm] at hall; simp [exceptOk] at hall
    | .ok picked => rw [he, hmm, except_bind_ok]; rfl
  have hsearch : exceptOk (process_search_results (.dict s)) = true := by
    have hall := mapM_except_isOk searchLine (rs.take 20)
      (fun x hx => searchLine_isOk x
        (List.all_eq_true.mp h2 x (List.take_subset _ _ hx)))
    have h0 : valueGet (.dict s) "organic_results" (.list []) = .ok (.list rs) := by
      simp [valueGet, ho]
    have he : process_search_results (.dict s)
        = (valueGet (.dict s) "organic_results" (.list [])) >>= (fun organic =>
            (pySlice organic 20) >>= (fun sliced =>
              (pyIter sliced) >>= (fun items =>
                (items.mapM searchLine) >>= (fun lines =>
                  pure (String.intercalate "\n" lines))))) := rfl
    rw [he, h0, except_bind_ok]
    show exceptOk (((rs.take 20).mapM searchLine) >>= (fun lines =>
      pure (String.intercalate "\n" lines))) = true
    match hmm : (rs.take 20).mapM searchLine with
    | .error e => rw [hmm] at hall; simp [exceptOk] at hall
    | .ok lines => rfl
  have hmn : valueGet (.dict kvs) "market_news" (.dict []) = .ok (.dict m) := by
    simp [valueGet, hm]
  have hsn : valueGet (.dict kvs) "search_results" (.dict []) = .ok (.dict s) := by
    simp [valueGet, hs]
  have hart : valueGet (.dict m) "articles" (.list []) = .ok (.list as) := by
    simp [valueGet, ha]
  have hp : preprocess_data (.dict kvs)
      = (valueGet (.dict kvs) "market_news" (.dict [])) >>= (fun mn =>
          (valueGet mn "articles" (.list [])) >>= (fun articles =>
            (extract_text articles) >>= (fun news =>
              (valueGet (.dict kvs) "search_results" (.dict [])) >>= (fun sr =>
                (process_search_results sr) >>= (fun srs =>
                  pure [("news", .list (news.map .str)),
                        ("search_results", .str srs)]))))) := rfl
  rw [hp, hmn, except_bind_ok, hart, except_bind_ok]
  match hext' : extract_text (.list as) with
  | .error e => rw [hext'] at hext; simp [exceptOk] at hext
  | .ok news =>
      rw [except_bind_ok, hsn, except_bind_ok]
      match hsr : process_search_results (.dict s) with
      | .error e => rw [hsr] at hsearch; simp [exceptOk] at hsearch
      | .ok sr => rw [except_bind_ok]; rfl

/-- C3, witness: totality on a concrete well-formed raw input. -/
theorem C3_preprocess_total_witness :
    exceptOk (preprocess_data
      (.dict [("market_news", .dict [("articles",
                 .list [.dict [("title", .str "t"), ("description", .str "d")]])]),
              ("search_results", .dict [("organic_results", .list [.dict []])])])) = true :=
  C3_preprocess_total_amended.1 _ (by decide)

/-! Claim C4: totality and behavior of the deduplicate stage. -/

theorem dedupGo_cons (seen : List HashKey) (v : Value) (vs : List Value) :
    dedupGo seen (v :: vs) = (create_hash v) >>= (fun h =>
      if h ∈ seen then dedupGo seen vs
      else (dedupGo (h :: seen) vs) >>= (fun rest => pure (v :: rest))) := rfl

instance : DecidableEq (Except String HashKey) := fun a b =>
  match a, b with
  | .ok x, .ok y =>
      if h : x = y then .isTrue (by rw [h])
      else .isFalse (fun hc => h (Except.ok.inj hc))
  | .error x, .error y =>
      if h : x = y then .isTrue (by rw [h])
      else .isFalse (fun hc => h (Except.error.inj hc))
  | .ok _, .error _ => .isFalse (fun hc => Except.noConfusion hc)
  | .error _, .ok _ => .isFalse (fun hc => Except.noConfusion hc)

/-- Boolean test for equal hashed content of two items. -/
def hashEqB (a b : Value) : Bool := decide (create_hash a = create_hash b)

/-- The spec's deduplication policy, written from its words: scan the list
left to right and keep an item exactly when no earlier item of the list has
the same hashed content — so of every group of content-equal items the
first occurrence survives, in first-seen order. -/
def keepFirstOccurrences (earlier : List Value) : List Value → List Value
  | [] => []
  | t :: rest =>
      if earlier.any (fun p => hashEqB p t) then
        keepFirstOccurrences (earlier ++ [t]) rest
      else
        t :: keepFirstOccurrences (earlier ++ [t]) rest

theorem dedupGo_spec (ts : List Value) : ∀ (seen : List HashKey) (earlier : List Value),
    (∀ t ∈ ts, exceptOk (create_hash t) = true) →
    (∀ hk, hk ∈ seen ↔ ∃ p ∈ earlier, create_hash p = .ok hk) →
    ∃ us, dedupGo seen ts = .ok us ∧
      us = keepFirstOccurrences earlier ts ∧
      us.Sublist ts ∧
      (∀ u ∈ us, ∀ hk, create_hash u = .ok hk → hk ∉ seen) ∧
      us.Pairwise (fun x y => create_hash x ≠ create_hash y) ∧
      (∀ t ∈ ts, ∀ hk, create_hash t = .ok hk →
        hk ∈ seen ∨ ∃ u ∈ us, create_hash u = .ok hk) := by
  induction ts with
  | nil =>
      intro seen earlier _ _
      exact ⟨[], rfl, rfl, List.Sublist.refl [], by simp, by simp, by simp⟩
  | cons v vs ih =>
      intro seen earlier h hinv
      have hv := h v (by simp)
      match hcv : create_hash v with
      | .error e => rw [hcv] at hv; simp [exceptOk] at hv
      | .ok hkv =>
          have hiff : (earlier.any (fun p => hashEqB p v) = true) ↔ hkv ∈ seen := by
            rw [List.any_eq_true]
            constructor
            · rintro ⟨p, hp, hb⟩
              rw [hashEqB, decide_eq_true_eq, hcv] at hb
              exact (hinv hkv).mpr ⟨p, hp, hb⟩
            · intro hmem'
              obtain ⟨p, hp, hcp⟩ := (hinv hkv).mp hmem'
              exact ⟨p, hp, by rw [hashEqB, decide_eq_true_eq, hcv, hcp]⟩
          by_cases hmem : hkv ∈ seen
          · have hinv' : ∀ hk, hk ∈ seen ↔ ∃ p ∈ earlier ++ [v], create_hash p = .ok hk := by
              intro hk
              constructor
              · intro h'
                obtain ⟨p, hp, hcp⟩ := (hinv hk).mp h'
                exact ⟨p, List.mem_append_left _ hp, hcp⟩
              · rintro ⟨p, hp, hcp⟩
                rcases List.mem_append.mp hp with hp' | hp'
                · exact (hinv hk).mpr ⟨p, hp', hcp⟩
                · have hpv : p = v := by simpa using hp'
                  subst hpv
                  rw [hcv] at hcp
                  have : hkv = hk := Except.ok.inj hcp
                  exact this ▸ hmem
            obtain ⟨us, hus, hkeep, hsub, hnotseen, hpw, hcover⟩ :=
              ih seen (earlier ++ [v]) (fun t ht => h t (by simp [ht])) hinv'
            refine ⟨us, ?_, ?_, hsub.cons _, hnotseen, hpw, ?_⟩
            · rw [dedupGo_cons, hcv, except_bind_ok, if_pos hmem]; exact hus
            · rw [keepFirstOccurrences, if_pos (hiff.mpr hmem)]; exact hkeep
            · intro t ht hk hck
              rcases List.mem_cons.mp ht with rfl | ht'
              · left
                have : hk = hkv := by
                  rw [hcv] at hck; exact (Except.ok.inj hck).symm
                exact this ▸ hmem
              · exact hcover t ht' hk hck
          · have hinv' : ∀ hk, hk ∈ hkv :: seen
                ↔ ∃ p ∈ earlier ++ [v], create_hash p = .ok hk := by
              intro hk
              constructor
              · intro h'
                rcases List.mem_cons.mp h' with rfl | h''
                · exact ⟨v, List.mem_append_right _ (by simp), hcv⟩
                · obtain ⟨p, hp, hcp⟩ := (hinv hk).mp h''
                  exact ⟨p, List.mem_append_left _ hp, hcp⟩
              · rintro ⟨p, hp, hcp⟩
                rcases List.mem_append.mp hp with hp' | hp'
                · exact List.mem_cons_of_mem _ ((hinv hk).mpr ⟨p, hp', hcp⟩)
                · have hpv : p = v := by simpa using hp'
                  subst hpv
                  rw [hcv] at hcp
                  have : hkv = hk := Except.ok.inj hcp
                  exact this ▸ List.mem_cons_self _ _
            obtain ⟨us, hus, hkeep, hsub, hnotseen, hpw, hcover⟩ :=
              ih (hkv :: seen) (earlier ++ [v]) (fun t ht => h t (by simp [ht])) hinv'
            have hanyF : (earlier.any (fun p => hashEqB p v)) = false := by
              rw [Bool.eq_false_iff]
              intro hc
              exact hmem (hiff.mp hc)
            refine ⟨v :: us, ?_, ?_, hsub.cons₂ _, ?_, ?_, ?_⟩
            · rw [dedupGo_cons, hcv, except_bind_ok, if_neg hmem, hus, except_bind_ok]; rfl
            · rw [keepFirstOccurrences, if_neg (by rw [hanyF]; exact Bool.noConfusion), hkeep]
            · intro u hu hk hck
              rcases List.mem_cons.mp hu with rfl | hu'
              · have : hk = hkv := by rw [hcv] at hck; exact (Except.ok.inj hck).symm
                exact this ▸ hmem
              · have := hnotseen u hu' hk hck
                exact fun hc => this (List.mem_cons_of_mem _ hc)
            · refine List.Pairwise.cons ?_ hpw
              intro u hu
              have hu_ok := h u (List.mem_cons_of_mem _ (hsub.subset hu))
              match hcu : create_hash u with
              | .error e => rw [hcu] at hu_ok; simp [exceptOk] at hu_ok
              | .ok hku =>
                  have hne : hku ∉ hkv :: seen := hnotseen u hu hku hcu
                  have hne' : hkv ≠ hku := fun hc => hne (hc ▸ List.mem_cons_self _ _)
                  rw [hcv]
                  intro hc
                  exact hne' (Except.ok.inj hc)
            · intro t ht hk hck
              rcases List.mem_cons.mp ht with rfl | ht'
              · right
                refine ⟨t, List.mem_cons_self _ _, ?_⟩
                rw [hcv] at hck ⊢; exact hck
              · rcases hcover t ht' hk hck with hin | ⟨u, hu, hcu⟩
                · rcases List.mem_cons.mp hin with rfl | hin'
                  · right; exact ⟨v, List.mem_cons_self _ _, hcv⟩
                  · left; exact hin'
                · right; exact ⟨u, List.mem_cons_of_mem _ hu, hcu⟩

/-- One key update of `remove_duplicates` (the body of its loop). -/
def dedupStep (a : List (String × Value)) (key : String) :
    Except String (List (String × Value)) :=
  if a.any (fun kv => kv.1 == key) then do
    let items ← pyIter (dictGet a key Value.none)
    let uniq ← dedupGo [] items
    return dictSet a key (.list uniq)
  else return a

theorem remove_duplicates_eq (a : List (String × Value)) :
    remove_duplicates a = dedupStep a "trends" >>= (fun a1 =>
      dedupStep a1 "strengths" >>= (fun a2 =>
        dedupStep a2 "weaknesses" >>= (fun a3 => pure a3))) := rfl

theorem dedupStep_spec (a : List (String × Value)) (key : String)
    (hk : ∀ v, dictLookup a key = some v →
      ∃ ts, v = .list ts ∧ ∀ t ∈ ts, exceptOk (create_hash t) = true) :
    ∃ a', dedupStep a key = .ok a' ∧
      (∀ k', k' ≠ key → dictLookup a' k' = dictLookup a k') ∧
      (dictLookup a key = Option.none → a' = a) ∧
      (∀ ts, dictLookup a key = some (.list ts) →
        ∃ us, dictLookup a' key = some (.list us) ∧
          us = keepFirstOccurrences [] ts ∧
          us.Sublist ts ∧
          us.Pairwise (fun x y => create_hash x ≠ create_hash y) ∧
          (∀ t ∈ ts, ∃ u ∈ us, create_hash u = create_hash t)) := by
  match hv : dictLookup a key with
  | Option.none =>
      have hany : (a.any (fun kv => kv.1 == key)) = false := by
        rw [any_key_eq_isSome, hv]; rfl
      refine ⟨a, ?_, fun _ _ => rfl, fun _ => rfl, ?_⟩
      · rw [dedupStep, hany]; rfl
      · intro ts hts; exact Option.noConfusion hts
  | some v =>
      obtain ⟨ts, rfl, hall⟩ := hk v hv
      have hany : (a.any (fun kv => kv.1 == key)) = true := by
        rw [any_key_eq_isSome, hv]; rfl
      obtain ⟨us, hus, hkeep, hsub, _, hpw, hcover⟩ :=
        dedupGo_spec ts [] [] hall (by simp)
      refine ⟨dictSet a key (.list us), ?_, ?_, ?_, ?_⟩
      · rw [dedupStep, hany, if_pos rfl]
        have hstep : (do
            let items ← pyIter (dictGet a key Value.none)
            let uniq ← dedupGo [] items
            return dictSet a key (.list uniq)) = Except.ok (dictSet a key (.list us)) := by
          rw [dictGet_of_lookup _ hv]
          show ((pyIter (.list ts)) >>= (fun items =>
            (dedupGo [] items) >>= (fun uniq => pure (dictSet a key (.list uniq)))))
              = Except.ok (dictSet a key (.list us))
          rw [show pyIter (.list ts) = .ok ts from rfl, except_bind_ok, hus, except_bind_ok]
          rfl
        exact hstep
      · intro k' hk'
        rw [dictLookup_dictSet, if_neg hk']
      · intro hnone; exact Option.noConfusion hnone
      · intro ts' hts'
        have hts_eq : ts' = ts := by
          have := Option.some.inj hts'
          exact (Value.list.inj this).symm
        subst hts_eq
        refine ⟨us, ?_, hkeep, hsub, hpw, ?_⟩
        · rw [dictLookup_dictSet, if_pos rfl]
        · intro t ht
          have ht_ok := hall t ht
          match hct : create_hash t with
          | .error e => rw [hct] at ht_ok; simp [exceptOk] at ht_ok
          | .ok hkt =>
              rcases hcover t ht hkt hct with hin | ⟨u, hu, hcu⟩
              · exact absurd hin (List.not_mem_nil _)
              · exact ⟨u, hu, by rw [hcu]⟩

/-- C4, counterexample.  The claim says the deduplicate stage is total,
including on trend mappings with list-valued fields such as `evidence`;
hashing such a mapping raises `TypeError: unhashable type` in
`create_hash`. -/
theorem C4_unhashable_counterexample :
    remove_duplicates [("trends", .list [.dict [("evidence", .list [.str "e"])]])]
      = .error "TypeError: unhashable type" := rfl

/-- C4, amended.  The deduplicate stage completes without raising on every
analysis whose `trends`, `strengths` and `weaknesses` entries (when
present) hold lists of items whose content hash is defined — in particular
mappings whose field values are all hashable scalars, so not mappings with
list-valued fields — and each such entry becomes exactly the
first-occurrence filter of its list (`keepFirstOccurrences`: an item is
kept precisely when no earlier item has equal hashed content), hence the
sublist of first occurrences in first-seen order with pairwise distinct
hashed content and every input item represented.  The two concrete runs
show keep-first on hash-equal distinct values (`1` before `'1'`) and on
mappings with the same items in different key order. -/
theorem C4_dedup_amended :
    (∀ a : List (String × Value),
      (∀ key ∈ dedup_keys, ∀ v, dictLookup a key = some v →
        ∃ ts, v = .list ts ∧ ∀ t ∈ ts, exceptOk (create_hash t) = true) →
      ∃ a', remove_duplicates a = .ok a' ∧
        ∀ key ∈ dedup_keys, ∀ ts, dictLookup a key = some (.list ts) →
          ∃ us, dictLookup a' key = some (.list us) ∧
            us = keepFirstOccurrences [] ts ∧
            us.Sublist ts ∧
            us.Pairwise (fun x y => create_hash x ≠ create_hash y) ∧
            (∀ t ∈ ts, ∃ u ∈ us, create_hash u = create_hash t))
    ∧ remove_duplicates [("trends", .list [.int 1, .str "1"])]
        = .ok [("trends", .list [.int 1])]
    ∧ remove_duplicates [("trends",
        .list [.dict [("a", .int 1), ("b", .int 2)], .dict [("b", .int 2), ("a", .int 1)]])]
        = .ok [("trends", .list [.dict [("a", .int 1), ("b", .int 2)]])] := by
  refine ⟨?_, rfl, rfl⟩
  intro a h
  have hT := h "trends" (by simp [dedup_keys])
  have hS := h "strengths" (by simp [dedup_keys])
  have hW := h "weaknesses" (by simp [dedup_keys])
  obtain ⟨a1, e1, f1, n1, g1⟩ := dedupStep_spec a "trends" hT
  have hS1 : ∀ v, dictLookup a1 "strengths" = some v →
      ∃ ts, v = .list ts ∧ ∀ t ∈ ts, exceptOk (create_hash t) = true := by
    intro v hv; exact hS v (by rw [f1 _ (by decide)] at hv; exact hv)
  obtain ⟨a2, e2, f2, n2, g2⟩ := dedupStep_spec a1 "strengths" hS1
  have hW2 : ∀ v, dictLookup a2 "weaknesses" = some v →
      ∃ ts, v = .list ts ∧ ∀ t ∈ ts, exceptOk (create_hash t) = true := by
    intro v hv
    exact hW v (by rw [f2 _ (by decide), f1 _ (by decide)] at hv; exact hv)
  obtain ⟨a3, e3, f3, n3, g3⟩ := dedupStep_spec a2 "weaknesses" hW2
  refine ⟨a3, ?_, ?_⟩
  · rw [remove_duplicates_eq, e1, except_bind_ok, e2, except_bind_ok, e3, except_bind_ok]; rfl
  · intro key hkey ts hts
    simp only [dedup_keys, List.mem_cons, List.not_mem_nil, or_false] at hkey
    rcases hkey with rfl | rfl | rfl
    · obtain ⟨us, hu, hkeep, hsub, hpw, hcov⟩ := g1 ts hts
      refine ⟨us, ?_, hkeep, hsub, hpw, hcov⟩
      rw [f3 _ (by decide), f2 _ (by decide)]; exact hu
    · have hts1 : dictLookup a1 "strengths" = some (.list ts) := by
        rw [f1 _ (by decide)]; exact hts
      obtain ⟨us, hu, hkeep, hsub, hpw, hcov⟩ := g2 ts hts1
      refine ⟨us, ?_, hkeep, hsub, hpw, hcov⟩
      rw [f3 _ (by decide)]; exact hu
    · have hts2 : dictLookup a2 "weaknesses" = some (.list ts) := by
        rw [f2 _ (by decide), f1 _ (by decide)]; exact hts
      exact g3 ts hts2

/-- C4, witness: dedup on a concrete trends list with a duplicate mapping,
via the amended theorem. -/
theorem C4_dedup_amended_witness :
    ∃ a', remove_duplicates [("trends",
        .list [.dict [("name", .str "A")], .dict [("name", .str "A")],
               .dict [("name", .str "B")]])] = .ok a' ∧
      ∀ key ∈ dedup_keys, ∀ ts,
        dictLookup [("trends",
          .list [.dict [("name", .str "A")], .dict [("name", .str "A")],
                 .dict [("name", .str "B")]])] key = some (.list ts) →
        ∃ us, dictLookup a' key = some (.list us) ∧
          us = keepFirstOccurrences [] ts ∧
          us.Sublist ts ∧
          us.Pairwise (fun x y => create_hash x ≠ create_hash y) ∧
          (∀ t ∈ ts, ∃ u ∈ us, create_hash u = create_hash t) := by
  refine C4_dedup_amended.1 _ ?_
  intro key hkey v hv
  simp only [dedup_keys, List.mem_cons, List.not_mem_nil, or_false] at hkey
  rcases hkey with rfl | rfl | rfl
  · have hv' : (some (Value.list [.dict [("name", .str "A")], .dict [("name", .str "A")],
        .dict [("name", .str "B")]]) : Option Value) = some v := hv
    refine ⟨[.dict [("name", .str "A")], .dict [("name", .str "A")],
      .dict [("name", .str "B")]], (Option.some.inj hv').symm, ?_⟩
    intro t ht
    rcases List.mem_cons.mp ht with rfl | ht'
    · rfl
    rcases List.mem_cons.mp ht' with rfl | ht''
    · rfl
    rcases List.mem_cons.mp ht'' with rfl | ht'''
    · rfl
    · exact absurd ht''' (List.not_mem_nil _)
  · exact Option.noConfusion (show (Option.none : Option Value) = some v from hv)
  · exact Option.noConfusion (show (Option.none : Option Value) = some v from hv)

/-! Claim C5: the chunker.  The spec-side `batches` grouping is related to
the two loops of `chunk_data`. -/

theorem batchesF_congr (m : Nat) : ∀ (f1 f2 : Nat) (l : List α),
    l.length ≤ f1 → l.length ≤ f2 → batchesF m f1 l = batchesF m f2 l := by
  intro f1
  induction f1 with
  | zero =>
      intro f2 l h1 _
      have : l = [] := List.eq_nil_of_length_eq_zero (Nat.le_zero.mp h1)
      subst this
      cases f2 <;> rfl
  | succ f1' ih =>
      intro f2 l h1 h2
      match l with
      | [] => cases f2 <;> rfl
      | x :: xs =>
          match f2 with
          | 0 => simp at h2
          | f2' + 1 =>
              simp only [batchesF]
              congr 1
              have hd : ((x :: xs).drop (m + 1)).length ≤ xs.length := by
                simp only [List.length_drop, List.length_cons]
                omega
              have h1' : xs.length ≤ f1' := by
                simp only [List.length_cons] at h1; omega
              have h2' : xs.length ≤ f2' := by
                simp only [List.length_cons] at h2; omega
              exact ih f2' _ (Nat.le_trans hd h1') (Nat.le_trans hd h2')

theorem batches_cons_ne_nil (m : Nat) (l : List α) (h : l ≠ []) :
    batches m l = l.take (m + 1) :: batches m (l.drop (m + 1)) := by
  match l with
  | [] => exact absurd rfl h
  | x :: xs =>
      show batchesF m (xs.length + 1) (x :: xs) = _
      simp only [batchesF]
      congr 1
      apply batchesF_congr
      · simp [List.length_drop]
      · exact Nat.le_refl _

theorem batches_append_of_length (m : Nat) (l1 l2 : List α) (h : l1.length = m + 1) :
    batches m (l1 ++ l2) = l1 :: batches m l2 := by
  have hne : l1 ++ l2 ≠ [] := by
    intro hc
    rcases List.append_eq_nil.mp hc with ⟨h1, _⟩
    rw [h1] at h; simp at h
  rw [batches_cons_ne_nil m _ hne, List.take_left' h, List.drop_left' h]

theorem batches_short (m : Nat) (l : List α) (h : l.length ≤ m) :
    (batches m l).filter (fun g => g.length == m + 1) = [] := by
  match l with
  | [] => rfl
  | x :: xs =>
      rw [batches_cons_ne_nil m _ (by simp)]
      have h1 : (x :: xs).take (m + 1) = x :: xs := List.take_of_length_le (by omega)
      have h2 : (x :: xs).drop (m + 1) = [] := List.drop_eq_nil_of_le (by omega)
      rw [h1, h2]
      have hne : ((x :: xs).length == m + 1) = false := by
        simp only [beq_eq_false_iff_ne, ne_eq]
        omega
      show List.filter (fun g => g.length == m + 1) [x :: xs] = []
      simp only [List.filter_cons, List.filter_nil, hne]
      simp only [List.length_cons] at h
      simp
      try omega

/-- The news-article chunk wrapper of `chunk_data`. -/
def wrapNews (a : Value) : Value := Value.dict [("news", a)]

theorem chunkNewsGo_spec (as : List Value) : ∀ cur : List Value, cur.length < 5 →
    chunkNewsGo 5 as cur
      = ((batches 4 (cur ++ as.map wrapNews)).filter (fun g => g.length == 5)).map
          (fun g => Value.dict [("news", .list g)]) := by
  induction as with
  | nil =>
      intro cur hcur
      show ([] : List Value) = _
      rw [List.map_nil, List.append_nil, batches_short 4 cur (by omega)]
      rfl
  | cons a as' ih =>
      intro cur hcur
      show (if (cur ++ [wrapNews a]).length ≥ 5 then
          Value.dict [("news", .list (cur ++ [wrapNews a]))] :: chunkNewsGo 5 as' []
        else chunkNewsGo 5 as' (cur ++ [wrapNews a])) = _
      by_cases hlen : (cur ++ [wrapNews a]).length ≥ 5
      · rw [if_pos hlen]
        have h5 : (cur ++ [wrapNews a]).length = 5 := by
          simp at hlen ⊢; omega
        have hassoc : cur ++ (a :: as').map wrapNews
            = (cur ++ [wrapNews a]) ++ as'.map wrapNews := by
          simp
        rw [hassoc, batches_append_of_length 4 _ _ h5]
        have hkeep : ((cur ++ [wrapNews a]) :: batches 4 (as'.map wrapNews)).filter
            (fun g => g.length == 5)
            = (cur ++ [wrapNews a]) :: (batches 4 (as'.map wrapNews)).filter
                (fun g => g.length == 5) := by
          rw [List.filter_cons]
          simp [h5]
        rw [hkeep, List.map_cons, ih [] (by simp)]
        simp
      · rw [if_neg hlen]
        have hcur' : (cur ++ [wrapNews a]).length < 5 := by omega
        rw [ih (cur ++ [wrapNews a]) hcur']
        congr 2
        simp

theorem chunkSearchGoF_eq (m : Nat) : ∀ (fuel : Nat) (items : List Value),
    chunkSearchGoF m fuel items
      = (batchesF m fuel items).map (fun g => Value.dict [("search_results", .list g)]) := by
  intro fuel
  induction fuel with
  | zero => intro items; cases items <;> rfl
  | succ f ih =>
      intro items
      cases items with
      | nil => rfl
      | cons i rest => simp only [chunkSearchGoF, batchesF, List.map_cons, ih]

theorem chunkSearchGo_eq (items : List Value) :
    chunkSearchGo 4 items
      = (batches 4 items).map (fun g => Value.dict [("search_results", .list g)]) :=
  chunkSearchGoF_eq 4 items.length items

/-- C5.  With chunk bound 5, the chunker groups the first at-most-20 news
items into consecutive full batches of 5 (each item wrapped as a
one-key `news` mapping), dropping a trailing partial batch, then groups
the first at-most-10 search-result lines into batches of 5 keeping the
trailing partial batch; batch order and in-batch order follow the input. -/
theorem C5_chunker (a : List (String × Value)) (ns : List Value) (s : String)
    (hn : dictLookup a "news" = some (.list ns))
    (hs : dictLookup a "search_results" = some (.str s)) :
    chunk_data a 5 = .ok (
      ((batches 4 ((ns.take 20).map wrapNews)).filter (fun g => g.length == 5)).map
          (fun g => Value.dict [("news", .list g)])
      ++ (batches 4 ((((splitOnChar '\n' s.data).map String.mk).take 10).map Value.str)).map
          (fun g => Value.dict [("search_results", .list g)])) := by
  have e1 : dictGet a "news" (.list []) = .list ns := dictGet_of_lookup _ hn
  have e2 : dictGet a "search_results" (.str "") = .str s := dictGet_of_lookup _ hs
  have he : chunk_data a 5
      = .ok (chunkNewsGo 5 (ns.take 20) []
          ++ chunkSearchGo 4 ((((splitOnChar '\n' s.data).map String.mk).take 10).map Value.str)) := by
    rw [chunk_data, e1, e2]
    rfl
  rw [he, chunkNewsGo_spec (ns.take 20) [] (by simp), chunkSearchGo_eq]
  simp

/-- C5, witness: 12 news items yield exactly two full news chunks of 5 with
the trailing 2 dropped, and 7 search lines yield chunks of sizes 5 and 2. -/
theorem C5_chunker_witness :
    chunk_data [("news", .list ((List.range 12).map Value.int)),
                ("search_results", .str "a\nb\nc\nd\ne\nf\ng")] 5 = .ok (
      ((batches 4 (((List.range 12).map Value.int |>.take 20).map wrapNews)).filter
          (fun g => g.length == 5)).map (fun g => Value.dict [("news", .list g)])
      ++ (batches 4 ((((splitOnChar '\n' ("a\nb\nc\nd\ne\nf\ng" : String).data).map
            String.mk).take 10).map Value.str)).map
          (fun g => Value.dict [("search_results", .list g)])) :=
  C5_chunker _ _ _ rfl rfl

/-! Claim C6: the response merger. -/

theorem mergeResponse_wrap (key : String) (acc l : List Value) :
    mergeResponse [(key, Value.list acc)] (Value.dict [(key, Value.list l)])
      = .ok [(key, Value.list (acc ++ l))] := by
  have hlook : dictLookup [(key, Value.list acc)] key = some (Value.list acc) := by
    rw [dictLookup_cons]; simp
  show (mergeOne [(key, Value.list acc)] key (Value.list l)) >>= (fun m => pure m)
      = .ok [(key, Value.list (acc ++ l))]
  rw [show mergeOne [(key, Value.list acc)] key (Value.list l)
      = (match dictLookup [(key, Value.list acc)] key with
        | some (.list old) => .ok (dictSet [(key, Value.list acc)] key (.list (old ++ l)))
        | some _ => .error "AttributeError: extend"
        | Option.none => .ok (dictSet [(key, Value.list acc)] key (.list l))) from rfl,
    hlook]
  show Except.ok (dictSet [(key, Value.list acc)] key (Value.list (acc ++ l)))
      >>= (fun m => pure m) = _
  rw [except_bind_ok]
  show Except.ok (if (key == key) = true then _ else _) = _
  simp [dictSet]

theorem merge_wrap_go (key : String) (ls : List (List Value)) :
    ∀ acc : List Value,
      List.foldlM mergeResponse [(key, Value.list acc)]
          (ls.map (fun vs => Value.dict [(key, Value.list vs)]))
        = .ok [(key, Value.list (acc ++ ls.flatten))] := by
  induction ls with
  | nil =>
      intro acc
      simp [List.foldlM]
      rfl
  | cons l ls ih =>
      intro acc
      rw [List.map_cons]
      show (mergeResponse [(key, Value.list acc)] (Value.dict [(key, Value.list l)]))
          >>= (fun b => List.foldlM mergeResponse b
            (ls.map (fun vs => Value.dict [(key, Value.list vs)]))) = _
      rw [mergeResponse_wrap, except_bind_ok, ih (acc ++ l)]
      simp

/-- C6.  The merger: an empty response sequence yields the empty mapping;
list-valued fields are concatenated across responses in order; dict-valued
fields are merged key-by-key through `dictUpdate` (and the concrete run
shows the later response overwriting a shared inner key); scalar string
fields are joined with a newline and stripped, as on the concrete pair
`x`, `y`. -/
theorem C6_merger :
    merge_responses [] = .ok []
    ∧ (∀ (key : String) (l : List Value) (ls : List (List Value)),
        merge_responses ((l :: ls).map (fun vs => Value.dict [(key, Value.list vs)]))
          = .ok [(key, Value.list ((l :: ls).flatten))])
    ∧ (∀ (key : String) (d1 d2 : List (String × Value)),
        merge_responses [.dict [(key, .dict d1)], .dict [(key, .dict d2)]]
          = .ok [(key, .dict (dictUpdate d1 d2))])
    ∧ merge_responses [.dict [("s", .str "x")], .dict [("s", .str "y")]]
        = .ok [("s", .str "x\ny")]
    ∧ merge_responses [.dict [("m", .dict [("x", .int 1)])], .dict [("m", .dict [("x", .int 2)])]]
        = .ok [("m", .dict [("x", .int 2)])] := by
  refine ⟨rfl, ?_, ?_, rfl, rfl⟩
  · intro key l ls
    rw [merge_responses, List.map_cons]
    show (mergeResponse [] (Value.dict [(key, Value.list l)]))
        >>= (fun b => List.foldlM mergeResponse b
          (ls.map (fun vs => Value.dict [(key, Value.list vs)]))) = _
    have h0 : mergeResponse [] (Value.dict [(key, Value.list l)])
        = .ok [(key, Value.list l)] := rfl
    rw [h0, except_bind_ok]
    have := merge_wrap_go key ls l
    rw [this]
    simp
  · intro key d1 d2
    have hlook : dictLookup [(key, Value.dict d1)] key = some (Value.dict d1) := by
      rw [dictLookup_cons]; simp
    rw [merge_responses]
    show (mergeResponse [] (Value.dict [(key, Value.dict d1)])) >>= (fun b =>
      (mergeResponse b (Value.dict [(key, Value.dict d2)])) >>= (fun b2 => pure b2)) = _
    have h0 : mergeResponse [] (Value.dict [(key, Value.dict d1)])
        = .ok [(key, Value.dict d1)] := rfl
    rw [h0, except_bind_ok]
    have h1 : mergeResponse [(key, Value.dict d1)] (Value.dict [(key, Value.dict d2)])
        = .ok [(key, Value.dict (dictUpdate d1 d2))] := by
      show (mergeOne [(key, Value.dict d1)] key (Value.dict d2)) >>= (fun m => pure m) = _
      rw [show mergeOne [(key, Value.dict d1)] key (Value.dict d2)
          = (match dictLookup [(key, Value.dict d1)] key with
            | some (.dict old) => .ok (dictSet [(key, Value.dict d1)] key (.dict (dictUpdate old d2)))
            | some _ => .error "AttributeError: update"
            | Option.none => .ok (dictSet [(key, Value.dict d1)] key (.dict d2))) from rfl,
        hlook]
      show Except.ok (dictSet [(key, Value.dict d1)] key (Value.dict (dictUpdate d1 d2)))
          >>= (fun m => pure m) = _
      rw [except_bind_ok]
      show Except.ok (if (key == key) = true then _ else _) = _
      simp [dictSet]
    rw [h1, except_bind_ok]
    rfl

/-! Claim C7: the retry policy around `structured_analysis`. -/

theorem retry3_cases (f : Nat → Except String Value) (w : Nat → ℚ) :
    retryGo f w 1 3 = (match f 1 with
      | .ok v => (Except.ok v, ([] : List ℚ))
      | .error _ => match f 2 with
        | .ok v => (Except.ok v, [w 1])
        | .error _ => (f 3, [w 1, w 2])) := by
  rw [show retryGo f w 1 3 = (match f 1 with
    | .ok v => (Except.ok v, ([] : List ℚ))
    | .error _ => ((retryGo f w 2 2).1, w 1 :: (retryGo f w 2 2).2)) from rfl]
  rw [show retryGo f w 2 2 = (match f 2 with
    | .ok v => (Except.ok v, ([] : List ℚ))
    | .error _ => (f 3, [w 2])) from rfl]
  cases h1 : f 1 with
  | ok v1 => rfl
  | error e1 =>
      cases h2 : f 2 with
      | ok v2 => rfl
      | error e2 => rfl

/-- C7.  The retry policy of the decorated `structured_analysis`: every
backoff wait lies in the band from 4 to 10 seconds; the result consults the
capability on at most the first `stop_after_attempt = 3` attempts (oracles
agreeing there give identical outcomes, result and waits alike); an
invocation failing on the first two attempts and succeeding on the third
returns the successful merged result after two backoff waits; and when all
three attempts fail the last error propagates to the caller. -/
theorem C7_retry_policy :
    (∀ k : Nat, 4 ≤ wait_exponential 1 4 10 k ∧ wait_exponential 1 4 10 k ≤ 10)
    ∧ (∀ (llmAt llmAt' : Nat → String → String → Except String Value)
         (data : List (String × Value)) (sys user : String),
        (∀ k, 1 ≤ k → k ≤ stop_after_attempt → llmAt k = llmAt' k) →
        structured_analysis llmAt data sys user = structured_analysis llmAt' data sys user)
    ∧ (∀ (llmAt : Nat → String → String → Except String Value)
         (data : List (String × Value)) (sys user : String) (e1 e2 : String) (v : Value),
        structured_analysis_once (llmAt 1) data sys user = .error e1 →
        structured_analysis_once (llmAt 2) data sys user = .error e2 →
        structured_analysis_once (llmAt 3) data sys user = .ok v →
        structured_analysis llmAt data sys user
          = (.ok v, [wait_exponential 1 4 10 1, wait_exponential 1 4 10 2]))
    ∧ (∀ (llmAt : Nat → String → String → Except String Value)
         (data : List (String × Value)) (sys user : String) (e1 e2 e3 : String),
        structured_analysis_once (llmAt 1) data sys user = .error e1 →
        structured_analysis_once (llmAt 2) data sys user = .error e2 →
        structured_analysis_once (llmAt 3) data sys user = .error e3 →
        structured_analysis llmAt data sys user
          = (.error e3, [wait_exponential 1 4 10 1, wait_exponential 1 4 10 2])) := by
  refine ⟨?_, ?_, ?_, ?_⟩
  · intro k
    constructor
    · calc (4 : ℚ) ≤ Max.max 0 4 := by norm_num
        _ ≤ wait_exponential 1 4 10 k := le_max_left _ _
    · apply max_le
      · norm_num
      · exact min_le_right _ _
  · intro llmAt llmAt' data sys user h
    have h1 : llmAt 1 = llmAt' 1 := h 1 (by omega) (by simp [stop_after_attempt])
    have h2 : llmAt 2 = llmAt' 2 := h 2 (by omega) (by simp [stop_after_attempt])
    have h3 : llmAt 3 = llmAt' 3 := h 3 (by omega) (by simp [stop_after_attempt])
    rw [structured_analysis, structured_analysis, show stop_after_attempt = 3 from rfl,
      retry3_cases, retry3_cases]
    simp only [h1, h2, h3]
  · intro llmAt data sys user e1 e2 v hf1 hf2 hf3
    rw [structured_analysis, show stop_after_attempt = 3 from rfl, retry3_cases]
    simp only [hf1, hf2, hf3]
  · intro llmAt data sys user e1 e2 e3 hf1 hf2 hf3
    rw [structured_analysis, show stop_after_attempt = 3 from rfl, retry3_cases]
    simp only [hf1, hf2, hf3]

/-- C7, witness: a capability failing on the first two attempts and
succeeding on the third returns the merged third-attempt result after two
in-band waits. -/
theorem C7_retry_policy_witness :
    structured_analysis
        (fun k _sys _user => if k ≤ 2 then .error "boom" else .ok (.dict []))
        [("news", .list []), ("search_results", .str "")] "sys" "user"
      = (.ok (.dict []), [wait_exponential 1 4 10 1, wait_exponential 1 4 10 2]) :=
  C7_retry_policy.2.2.1
    (fun k _sys _user => if k ≤ 2 then .error "boom" else .ok (.dict []))
    [("news", .list []), ("search_results", .str "")] "sys" "user"
    "boom" "boom" (.dict []) rfl rfl rfl

/-! Claim C8: the quality score. -/

/-- C8.  On an analysis whose `trends` holds a list of `n` items the score
is exactly `min(0.3 + min(n * 0.1, 0.3), 1.0)` (as exact rationals): 0
trends give 0.3, 3 trends give 0.6, 10 trends give 0.6 (the trend term is
clamped at 0.3, not by the outer 1.0 cap), and every score the function
returns lies in the interval from 0 to 1. -/
theorem C8_quality_score :
    (∀ (a : List (String × Value)) (ts : List Value),
        dictLookup a "trends" = some (.list ts) →
        calculate_quality_score a
          = .ok (Min.min ((3 : ℚ)/10 + Min.min ((ts.length : ℚ) * (1/10)) ((3 : ℚ)/10)) 1))
    ∧ calculate_quality_score [("trends", .list [])] = .ok (3/10)
    ∧ calculate_quality_score [("trends", .list [.int 0, .int 1, .int 2])] = .ok (3/5)
    ∧ calculate_quality_score [("trends",
        .list [.int 0, .int 1, .int 2, .int 3, .int 4, .int 5, .int 6, .int 7, .int 8, .int 9])]
        = .ok (3/5)
    ∧ (∀ (a : List (String × Value)) (q : ℚ),
        calculate_quality_score a = .ok q → 0 ≤ q ∧ q ≤ 1) := by
  have h1 : ∀ (a : List (String × Value)) (ts : List Value),
      dictLookup a "trends" = some (.list ts) →
      calculate_quality_score a
        = .ok (Min.min ((3 : ℚ)/10 + Min.min ((ts.length : ℚ) * (1/10)) ((3 : ℚ)/10)) 1) := by
    intro a ts h
    rw [calculate_quality_score, dictGet_of_lookup _ h]
    rw [show pyLen (.list ts) = .ok ts.length from rfl, except_bind_ok]
    rfl
  refine ⟨h1, ?_, ?_, ?_, ?_⟩
  · rw [h1 [("trends", .list [])] [] rfl]
    congr 1
    norm_num
  · rw [h1 [("trends", .list [.int 0, .int 1, .int 2])] [.int 0, .int 1, .int 2] rfl]
    congr 1
    norm_num
  · rw [h1 [("trends",
        .list [.int 0, .int 1, .int 2, .int 3, .int 4, .int 5, .int 6, .int 7, .int 8, .int 9])]
      [.int 0, .int 1, .int 2, .int 3, .int 4, .int 5, .int 6, .int 7, .int 8, .int 9] rfl]
    congr 1
    norm_num
  · intro a q h
    rw [calculate_quality_score] at h
    match hp : pyLen (dictGet a "trends" (.list [])) with
    | .error e =>
        rw [hp] at h
        exact Except.noConfusion h
    | .ok n =>
        rw [hp, except_bind_ok] at h
        have hq := Except.ok.inj h
        subst hq
        constructor
        · apply le_min
          · have hn : (0 : ℚ) ≤ (n : ℚ) * (1/10) :=
              mul_nonneg (Nat.cast_nonneg n) (by norm_num)
            have : (0 : ℚ) ≤ Min.min ((n : ℚ) * (1/10)) ((3 : ℚ)/10) :=
              le_min hn (by norm_num)
            linarith
          · norm_num
        · exact min_le_right _ _

/-- C8, witness: the score of a two-trend analysis via the exact formula. -/
theorem C8_quality_score_witness :
    calculate_quality_score [("trends", .list [.int 1, .int 2])]
      = .ok (Min.min ((3 : ℚ)/10
          + Min.min ((([Value.int 1, Value.int 2].length : ℕ) : ℚ) * (1/10)) ((3 : ℚ)/10)) 1) :=
  C8_quality_score.1 [("trends", .list [.int 1, .int 2])] [.int 1, .int 2] rfl

/-! Claim C9: the two validator stages are read-only. -/

/-- C9.  The validate-structure and validate-quality stages never change the
analysis: whenever they return, they return the input analysis with only
warning lines beside it, and removing both stages from the postprocessing
chain leaves the produced analysis value unchanged. -/
theorem C9_validators_read_only :
    (∀ (a : List (String × Value)) (r : List (String × Value) × List String),
        validate_data_structure a = .ok r → r.1 = a)
    ∧ (∀ (a : List (String × Value)) (r : List (String × Value) × List String),
        validate_analysis_quality a = .ok r → r.1 = a)
    ∧ (∀ (now : String) (a : List (String × Value)) (res : List (String × Value) × List String),
        postprocess_analysis now a = .ok res → postprocessCore now a = .ok res.1) := by
  have hvds : ∀ (a : List (String × Value)) (r : List (String × Value) × List String),
      validate_data_structure a = .ok r → r.1 = a := by
    intro a r h
    by_cases hc : a.any (fun kv => kv.1 == "competitors")
    · rw [validate_data_structure, if_pos hc] at h
      match hv : valueGet (dictGet a "competitors" Value.none) "top_competitors" (.list []) with
      | .error e => rw [hv] at h; exact Except.noConfusion h
      | .ok tc =>
          rw [hv, except_bind_ok] at h
          match hi : pyIter tc with
          | .error e => rw [hi] at h; exact Except.noConfusion h
          | .ok items =>
              rw [hi, except_bind_ok] at h
              match hm : items.mapM validateCompetitor with
              | .error e => rw [hm] at h; exact Except.noConfusion h
              | .ok warns =>
                  rw [hm, except_bind_ok] at h
                  have := Except.ok.inj h
                  rw [← this]
    · rw [validate_data_structure, if_neg hc] at h
      have := Except.ok.inj h
      rw [← this]
  have hvaq : ∀ (a : List (String × Value)) (r : List (String × Value) × List String),
      validate_analysis_quality a = .ok r → r.1 = a := by
    intro a r h
    rw [validate_analysis_quality] at h
    match h1 : valueGet (dictGet a "competitors" (.dict [])) "top_competitors" (.list []) with
    | .error e => rw [h1] at h; exact Except.noConfusion h
    | .ok competitors =>
        rw [h1, except_bind_ok] at h
        match h2 : pyLen competitors with
        | .error e => rw [h2] at h; exact Except.noConfusion h
        | .ok nc =>
            rw [h2, except_bind_ok] at h
            match h3 : pyLen (dictGet a "trends" (.list [])) with
            | .error e => rw [h3] at h; exact Except.noConfusion h
            | .ok nt =>
                rw [h3, except_bind_ok] at h
                match h4 : valueGet (dictGet a "swot" (.dict [])) "weaknesses" (.dict []) with
                | .error e => rw [h4] at h; exact Except.noConfusion h
                | .ok sw =>
                    rw [h4, except_bind_ok] at h
                    match h5 : valueGet sw "evidence" (.list []) with
                    | .error e => rw [h5] at h; exact Except.noConfusion h
                    | .ok weaknesses =>
                        rw [h5, except_bind_ok] at h
                        match h6 : pyLen weaknesses with
                        | .error e => rw [h6] at h; exact Except.noConfusion h
                        | .ok nw =>
                            rw [h6, except_bind_ok] at h
                            have := Except.ok.inj h
                            rw [← this]
  refine ⟨hvds, hvaq, ?_⟩
  intro now a res h
  rw [postprocess_analysis] at h
  match h2 : remove_duplicates (normalize_texts a) with
  | .error e => rw [h2] at h; exact Except.noConfusion h
  | .ok a2 =>
      rw [h2, except_bind_ok] at h
      match h3 : validate_data_structure a2 with
      | .error e => rw [h3] at h; exact Except.noConfusion h
      | .ok p1 =>
          rw [h3, except_bind_ok] at h
          have ha2 : p1.1 = a2 := hvds a2 p1 h3
          rw [ha2] at h
          match h4 : strategic_sorting a2 with
          | .error e => rw [h4] at h; exact Except.noConfusion h
          | .ok a3 =>
              rw [h4, except_bind_ok] at h
              match h5 : validate_analysis_quality a3 with
              | .error e => rw [h5] at h; exact Except.noConfusion h
              | .ok p2 =>
                  rw [h5, except_bind_ok] at h
                  have ha3 : p2.1 = a3 := hvaq a3 p2 h5
                  rw [ha3] at h
                  match h6 : add_metadata now a3 with
                  | .error e => rw [h6] at h; exact Except.noConfusion h
                  | .ok a4 =>
                      rw [h6, except_bind_ok] at h
                      have hres := Except.ok.inj h
                      rw [postprocessCore, h2, except_bind_ok, h4, except_bind_ok, h6]
                      rw [← hres]

/-- C9, witness: the validators on a small analysis with competitors,
trends and SWOT content leave it untouched, and the pipeline equals the
validator-free chain there. -/
theorem C9_validators_read_only_witness :
    validate_data_structure [("competitors", .dict [("top_competitors",
        .list [.dict [("name", .str "acme"), ("market_share", .float 30)]])])]
      = .ok ([("competitors", .dict [("top_competitors",
          .list [.dict [("name", .str "acme"), ("market_share", .float 30)]])])], [])
    ∧ ([("competitors", .dict [("top_competitors",
        .list [.dict [("name", .str "acme"), ("market_share", .float 30)]])])]
        : List (String × Value))
      = [("competitors", .dict [("top_competitors",
          .list [.dict [("name", .str "acme"), ("market_share", .float 30)]])])] :=
  ⟨rfl, C9_validators_read_only.1
    [("competitors", .dict [("top_competitors",
        .list [.dict [("name", .str "acme"), ("market_share", .float 30)]])])]
    ([("competitors", .dict [("top_competitors",
        .list [.dict [("name", .str "acme"), ("market_share", .float 30)]])])], [])
    rfl⟩

/-! Claim C10: the chunker always emits a search-results chunk. -/

theorem splitOnChar_ne_nil (sep : Char) (cs : List Char) : splitOnChar sep cs ≠ [] := by
  induction cs with
  | nil => simp [splitOnChar]
  | cons c cs ih =>
      rw [splitOnChar]
      cases hsp : splitOnChar sep cs with
      | nil => simp
      | cons g gs => by_cases hc : c = sep <;> simp [hc]

/-- C10.  Splitting the empty joined search string on newlines yields one
empty line, so preprocessed data with no news and an empty search string
produces exactly one chunk holding the empty line; more generally any data
whose news list is empty and whose search field is a string yields at least
one (search) chunk. -/
theorem C10_empty_search_chunk :
    chunk_data [("news", .list []), ("search_results", .str "")] 5
      = .ok [.dict [("search_results", .list [.str ""])]]
    ∧ (∀ (a : List (String × Value)) (s : String),
        dictLookup a "news" = some (.list []) →
        dictLookup a "search_results" = some (.str s) →
        ∃ cs, chunk_data a 5 = .ok cs ∧ 1 ≤ cs.length) := by
  refine ⟨rfl, ?_⟩
  intro a s hn hs
  have e1 : dictGet a "news" (.list []) = .list [] := dictGet_of_lookup _ hn
  have e2 : dictGet a "search_results" (.str "") = .str s := dictGet_of_lookup _ hs
  have he : chunk_data a 5
      = .ok (chunkSearchGo 4 ((((splitOnChar '\n' s.data).map String.mk).take 10).map Value.str)) := by
    rw [chunk_data, e1, e2]
    rfl
  refine ⟨_, he, ?_⟩
  rw [chunkSearchGo_eq]
  have hne : ((((splitOnChar '\n' s.data).map String.mk).take 10).map Value.str) ≠ [] := by
    intro hcontra
    cases hsp : splitOnChar '\n' s.data with
    | nil => exact absurd hsp (splitOnChar_ne_nil '\n' s.data)
    | cons g gs =>
        rw [hsp] at hcontra
        simp at hcontra
  rw [batches_cons_ne_nil 4 _ hne]
  simp

/-- C10, witness: the general at-least-one-chunk statement applied to the
empty preprocessed data. -/
theorem C10_empty_search_chunk_witness :
    ∃ cs, chunk_data [("news", .list []), ("search_results", .str "")] 5 = .ok cs
      ∧ 1 ≤ cs.length :=
  C10_empty_search_chunk.2 [("news", .list []), ("search_results", .str "")] "" rfl rfl

